import Mathlib

/-!
Verification of the SCUFF-EM power/force/torque (PFT) core: the overlap
formulation (OPFT.cc) and the equivalence-principle formulation (EPPFT.cc).
The C++ code is shallowly embedded over exact rational arithmetic: `double`
becomes `ℚ`, `cdouble` becomes a pair of rationals `Cplx`, C arrays become
total functions indexed by `ℤ` (matching unchecked pointer indexing), and
external collaborators (the cubature-rule table, the reduced-field
evaluator, the panel-pair assessor, the Taylor-Duffy integrator, material
lookup and complex square root) are oracle parameters gathered in `ExtEnv`.
A call that dereferences a null pointer is modelled as `Option.none`.
-/

/-- Exact-arithmetic model of `cdouble`: a complex number with rational
real and imaginary parts. -/
structure Cplx where
  re : ℚ
  im : ℚ
deriving DecidableEq

theorem Cplx.eqParts {a b : Cplx} (h1 : a.re = b.re) (h2 : a.im = b.im) : a = b := by
  cases a; cases b; simp_all

instance : Zero Cplx := ⟨⟨0, 0⟩⟩
instance : One Cplx := ⟨⟨1, 0⟩⟩
instance : Add Cplx := ⟨fun a b => ⟨a.re + b.re, a.im + b.im⟩⟩
instance : Neg Cplx := ⟨fun a => ⟨-a.re, -a.im⟩⟩
instance : Sub Cplx := ⟨fun a b => ⟨a.re - b.re, a.im - b.im⟩⟩
instance : Mul Cplx := ⟨fun a b => ⟨a.re * b.re - a.im * b.im, a.re * b.im + a.im * b.re⟩⟩

@[simp] theorem Cplx.zero_re : (0 : Cplx).re = 0 := rfl
@[simp] theorem Cplx.zero_im : (0 : Cplx).im = 0 := rfl
@[simp] theorem Cplx.one_re : (1 : Cplx).re = 1 := rfl
@[simp] theorem Cplx.one_im : (1 : Cplx).im = 0 := rfl
@[simp] theorem Cplx.add_re (a b : Cplx) : (a + b).re = a.re + b.re := rfl
@[simp] theorem Cplx.add_im (a b : Cplx) : (a + b).im = a.im + b.im := rfl
@[simp] theorem Cplx.neg_re (a : Cplx) : (-a).re = -a.re := rfl
@[simp] theorem Cplx.neg_im (a : Cplx) : (-a).im = -a.im := rfl
@[simp] theorem Cplx.sub_re (a b : Cplx) : (a - b).re = a.re - b.re := rfl
@[simp] theorem Cplx.sub_im (a b : Cplx) : (a - b).im = a.im - b.im := rfl
@[simp] theorem Cplx.mul_re (a b : Cplx) : (a * b).re = a.re * b.re - a.im * b.im := rfl
@[simp] theorem Cplx.mul_im (a b : Cplx) : (a * b).im = a.re * b.im + a.im * b.re := rfl

instance : CommRing Cplx where
  add_assoc a b c := by apply Cplx.eqParts <;> simp <;> ring
  zero_add a := by apply Cplx.eqParts <;> simp
  add_zero a := by apply Cplx.eqParts <;> simp
  add_comm a b := by apply Cplx.eqParts <;> simp <;> ring
  left_distrib a b c := by apply Cplx.eqParts <;> simp <;> ring
  right_distrib a b c := by apply Cplx.eqParts <;> simp <;> ring
  zero_mul a := by apply Cplx.eqParts <;> simp
  mul_zero a := by apply Cplx.eqParts <;> simp
  mul_assoc a b c := by apply Cplx.eqParts <;> simp <;> ring
  one_mul a := by apply Cplx.eqParts <;> simp
  mul_one a := by apply Cplx.eqParts <;> simp
  mul_comm a b := by apply Cplx.eqParts <;> simp <;> ring
  neg_add_cancel a := by apply Cplx.eqParts <;> simp
  sub_eq_add_neg a b := by apply Cplx.eqParts <;> simp <;> ring
  nsmul := nsmulRec
  zsmul := zsmulRec

/-- Complex inverse, the exact-arithmetic counterpart of complex division
(division by zero yields zero, as rational division does). -/
instance : Inv Cplx := ⟨fun z => ⟨z.re / (z.re * z.re + z.im * z.im), -z.im / (z.re * z.re + z.im * z.im)⟩⟩

instance : Div Cplx := ⟨fun a b => a * b⁻¹⟩

/-- Embedding of a real (`double`) value into `Cplx`, as C++ promotes
`double` to `cdouble` in mixed arithmetic. -/
def CQ (q : ℚ) : Cplx := ⟨q, 0⟩

@[simp] theorem CQ_re (q : ℚ) : (CQ q).re = q := rfl
@[simp] theorem CQ_im (q : ℚ) : (CQ q).im = 0 := rfl
@[simp] theorem CQ_zero : CQ 0 = 0 := rfl

/-- `conj` on the embedded complex numbers. -/
def Cplx.conj (z : Cplx) : Cplx := ⟨z.re, -z.im⟩

/-- The imaginary unit `II = cdouble(0.0,1.0)`. -/
def II : Cplx := ⟨0, 1⟩

/-- Model of a 3-component `double` vector. -/
structure Vec3 where
  x : ℚ
  y : ℚ
  z : ℚ
deriving DecidableEq

/-- Component access for the C loops `for(Mu=0; Mu<3; Mu++)`. -/
def Vec3.get (v : Vec3) : Fin 3 → ℚ
  | 0 => v.x
  | 1 => v.y
  | 2 => v.z

/-- `VecSub(A, B, C)` computes `C = A - B`. -/
def VecSub (a b : Vec3) : Vec3 := ⟨a.x - b.x, a.y - b.y, a.z - b.z⟩

def VecAdd (a b : Vec3) : Vec3 := ⟨a.x + b.x, a.y + b.y, a.z + b.z⟩

/-- `VecCross(A, B, C)` computes the cross product `C = A × B`. -/
def VecCross (a b : Vec3) : Vec3 :=
  ⟨a.y * b.z - a.z * b.y, a.z * b.x - a.x * b.z, a.x * b.y - a.y * b.x⟩

def VecDot (a b : Vec3) : ℚ := a.x * b.x + a.y * b.y + a.z * b.z

def VecScale (q : ℚ) (v : Vec3) : Vec3 := ⟨q * v.x, q * v.y, q * v.z⟩

/-- A 3-component `cdouble` vector. -/
structure CVec3 where
  c0 : Cplx
  c1 : Cplx
  c2 : Cplx
deriving DecidableEq

def CVec3.get (v : CVec3) : Fin 3 → Cplx
  | 0 => v.c0
  | 1 => v.c1
  | 2 => v.c2

def CVec3.mk3 (f : Fin 3 → Cplx) : CVec3 := ⟨f 0, f 1, f 2⟩

instance : Zero CVec3 := ⟨⟨0, 0, 0⟩⟩
instance : Add CVec3 := ⟨fun a b => ⟨a.c0 + b.c0, a.c1 + b.c1, a.c2 + b.c2⟩⟩

theorem CVec3.eqComps {a b : CVec3} (h0 : a.c0 = b.c0) (h1 : a.c1 = b.c1)
    (h2 : a.c2 = b.c2) : a = b := by
  cases a; cases b; simp_all

@[simp] theorem CVec3.zero_c0 : (0 : CVec3).c0 = 0 := rfl
@[simp] theorem CVec3.zero_c1 : (0 : CVec3).c1 = 0 := rfl
@[simp] theorem CVec3.zero_c2 : (0 : CVec3).c2 = 0 := rfl
@[simp] theorem CVec3.add_c0 (a b : CVec3) : (a + b).c0 = a.c0 + b.c0 := rfl
@[simp] theorem CVec3.add_c1 (a b : CVec3) : (a + b).c1 = a.c1 + b.c1 := rfl
@[simp] theorem CVec3.add_c2 (a b : CVec3) : (a + b).c2 = a.c2 + b.c2 := rfl

@[simp] theorem CVec3.add_zero (a : CVec3) : a + 0 = a :=
  CVec3.eqComps (by simp) (by simp) (by simp)

@[simp] theorem CVec3.zero_add (a : CVec3) : (0 : CVec3) + a = a :=
  CVec3.eqComps (by simp) (by simp) (by simp)

/-- Scale every component by a complex factor. -/
def CVec3.scale (w : Cplx) (a : CVec3) : CVec3 := ⟨w * a.c0, w * a.c1, w * a.c2⟩

/-- The constant `ZVAC` (impedance of free space) used by libscuff. -/
def ZVAC : ℚ := 376.73031346177

/-- The unit-conversion constant `TENTHIRDS` for force and torque. -/
def TENTHIRDS : ℚ := 10 / 3

/-!  ## Data model: panels, edges, surfaces, geometries

C arrays (`double *Vertices`, `RWGPanel **Panels`, ...) are modelled as
total functions on `ℤ`: C pointer indexing is unchecked, so an
out-of-range access simply reads whatever the environment supplies.
-/

/-- `RWGPanel`: `VI` maps a vertex slot (0,1,2) to a global vertex index,
`EI` maps a vertex slot to the index of the opposite edge (or -1). -/
structure RWGPanel where
  VI : ℤ → ℤ
  EI : ℤ → ℤ
  ZHat : Vec3
  Area : ℚ

/-- `RWGEdge`: an RWG basis function.  `iMPanel = -1` marks a boundary
edge with no negative panel. -/
structure RWGEdge where
  iQP : ℤ
  iV1 : ℤ
  iV2 : ℤ
  iQM : ℤ
  iPPanel : ℤ
  iMPanel : ℤ
  PIndex : ℤ
  MIndex : ℤ
  Length : ℚ

/-- `RWGSurface`.  `OTGT`/`GT` are the optional geometric transforms used
only to displace the torque center. -/
structure RWGSurface where
  Vertices : ℤ → Vec3
  Panels : ℤ → RWGPanel
  Edges : ℤ → RWGEdge
  NumEdges : ℕ
  IsPEC : Bool
  RegionIndices : ℤ → ℤ
  OTGT : Option (Vec3 → Vec3)
  GT : Option (Vec3 → Vec3)

structure RWGGeometry where
  NumSurfaces : ℤ
  Surfaces : ℤ → RWGSurface
  BFIndexOffset : ℤ → ℤ

/-- The external collaborators of the core, as oracles:
`tcr` = `GetTCR` cubature rule table (triples of two barycentric
coordinates and a weight); `grf` = `GetReducedFields_Nearby` as called by
the cubature integrator, `(ns, np, iQ, X, k) ↦ (e, h)`;
`assess` = `AssessPanelPair`, `(nsa, npa, nsb, npb) ↦ (ncv, Va, Vb)`
(the relative-distance output is unused here); `td` = the `TaylorDuffy`
primitive returning the six requested integrals; `getEpsMu` = material
lookup per region; `csqrt` = the complex square root; `forceCubature` =
presence of the `SCUFF_FORCECUBATURE` environment variable. -/
structure ExtEnv where
  tcr : ℕ → List (ℚ × ℚ × ℚ)
  grf : ℤ → ℤ → ℤ → Vec3 → Cplx → CVec3 × CVec3
  assess : ℤ → ℤ → ℤ → ℤ → ℕ × (Fin 3 → Vec3) × (Fin 3 → Vec3)
  td : ℕ → Cplx → (Fin 3 → Vec3) → Vec3 → (Fin 3 → Vec3) → Vec3 → Vec3 → Fin 6 → Cplx
  getEpsMu : ℤ → Cplx → Cplx × Cplx
  csqrt : Cplx → Cplx
  forceCubature : Bool

/-!  ## Overlap-integral engine (OPFT.cc lines 94-261) -/

/-- `AddOverlapContributions`: contribution of one panel to the 20
overlap integrals (OPFT.cc lines 94-160). -/
def AddOverlapContributions (S : RWGSurface) (P : RWGPanel) (iQa iQb : ℤ)
    (Sign LL : ℚ) (Overlaps : Fin 20 → ℚ) : Fin 20 → ℚ :=
  let Qa := S.Vertices (P.VI iQa)
  let QaP1 := S.Vertices (P.VI ((iQa + 1) % 3))
  let QaP2 := S.Vertices (P.VI ((iQa + 2) % 3))
  let Qb := S.Vertices (P.VI iQb)
  let ZHat := P.ZHat
  let L1 := VecSub QaP1 Qa
  let L2 := VecSub QaP2 QaP1
  let DQ := VecSub Qa Qb
  let ZxL1 := VecCross ZHat L1
  let ZxL2 := VecCross ZHat L2
  let ZxDQ := VecCross ZHat DQ
  let ZxQa := VecCross ZHat Qa
  let QaxZxL1 := VecCross Qa ZxL1
  let QaxZxL2 := VecCross Qa ZxL2
  let PreFac := Sign * LL / (2 * P.Area)
  let L1dL1 := VecDot L1 L1
  let L1dL2 := VecDot L1 L2
  let L1dDQ := VecDot L1 DQ
  let L2dL2 := VecDot L2 L2
  let L2dDQ := VecDot L2 DQ
  let TimesFactor := ((2 * L1.x + L2.x) * ZxDQ.x
                    + (2 * L1.y + L2.y) * ZxDQ.y
                    + (2 * L1.z + L2.z) * ZxDQ.z) / 6
  let BulletFactor1 := (L1dL1 + L1dL2) / 4 + L1dDQ / 3 + L2dL2 / 12 + L2dDQ / 6
  let BulletFactor2 := (L1dL1 + L1dL2) / 5 + L1dDQ / 4 + L2dL2 / 15 + L2dDQ / 8
  let BulletFactor3 := L1dL1 / 10 + 2 * L1dL2 / 15 + L1dDQ / 8 + L2dL2 / 20 + L2dDQ / 12
  let NablaCrossFactor := (L1dL1 + L1dL2) / 2 + L2dL2 / 6
  fun i => Overlaps i +
    ![PreFac * BulletFactor1,
      PreFac * TimesFactor,
      PreFac * ZHat.x * BulletFactor1,
      PreFac * ZHat.x * 2,
      PreFac * (2 * ZxL1.x + ZxL2.x) / 3,
      PreFac * ZHat.y * BulletFactor1,
      PreFac * ZHat.y * 2,
      PreFac * (2 * ZxL1.y + ZxL2.y) / 3,
      PreFac * ZHat.z * BulletFactor1,
      PreFac * ZHat.z * 2,
      PreFac * (2 * ZxL1.z + ZxL2.z) / 3,
      -(PreFac * (ZxQa.x * BulletFactor1 + ZxL1.x * BulletFactor2 + ZxL2.x * BulletFactor3)),
      -(PreFac * (2 * ZxQa.x + 4 * ZxL1.x / 3 + 2 * ZxL2.x / 3)),
      PreFac * (ZHat.x * NablaCrossFactor + 2 * QaxZxL1.x / 3 + QaxZxL2.x / 3),
      -(PreFac * (ZxQa.y * BulletFactor1 + ZxL1.y * BulletFactor2 + ZxL2.y * BulletFactor3)),
      -(PreFac * (2 * ZxQa.y + 4 * ZxL1.y / 3 + 2 * ZxL2.y / 3)),
      PreFac * (ZHat.y * NablaCrossFactor + 2 * QaxZxL1.y / 3 + QaxZxL2.y / 3),
      -(PreFac * (ZxQa.z * BulletFactor1 + ZxL1.z * BulletFactor2 + ZxL2.z * BulletFactor3)),
      -(PreFac * (2 * ZxQa.z + 4 * ZxL1.z / 3 + 2 * ZxL2.z / 3)),
      PreFac * (ZHat.z * NablaCrossFactor + 2 * QaxZxL1.z / 3 + QaxZxL2.z / 3)] i

/-- `RWGSurface::GetOverlaps` (OPFT.cc lines 199-224): zero-initialize the
20 outputs, then add the contributions of up to four panel pairings. -/
def GetOverlaps (S : RWGSurface) (neAlpha neBeta : ℤ) : Fin 20 → ℚ :=
  let EAlpha := S.Edges neAlpha
  let EBeta := S.Edges neBeta
  let PAlphaP := S.Panels EAlpha.iPPanel
  let PAlphaM := S.Panels EAlpha.iMPanel
  let iQPAlpha := EAlpha.PIndex
  let iQMAlpha := EAlpha.MIndex
  let iQPBeta := EBeta.PIndex
  let iQMBeta := EBeta.MIndex
  let LL := EAlpha.Length * EBeta.Length
  let O0 : Fin 20 → ℚ := fun _ => 0
  let O1 := if EAlpha.iPPanel = EBeta.iPPanel then
              AddOverlapContributions S PAlphaP iQPAlpha iQPBeta 1 LL O0 else O0
  let O2 := if EAlpha.iPPanel = EBeta.iMPanel then
              AddOverlapContributions S PAlphaP iQPAlpha iQMBeta (-1) LL O1 else O1
  let O3 := if EAlpha.iMPanel ≠ -1 ∧ EAlpha.iMPanel = EBeta.iPPanel then
              AddOverlapContributions S PAlphaM iQMAlpha iQPBeta (-1) LL O2 else O2
  if EAlpha.iMPanel ≠ -1 ∧ EAlpha.iMPanel = EBeta.iMPanel then
    AddOverlapContributions S PAlphaM iQMAlpha iQMBeta 1 LL O3 else O3

/-- `GetOverlappingEdgeIndices` (OPFT.cc lines 242-261), returning the
filled prefix of `nebArray` as a list (length 3 or 5). -/
def GetOverlappingEdgeIndices (S : RWGSurface) (nea : ℤ) : List ℤ :=
  let E := S.Edges nea
  let PP := S.Panels E.iPPanel
  let iQP := E.PIndex
  if E.iMPanel = -1 then
    [nea, PP.EI ((iQP + 1) % 3), PP.EI ((iQP + 2) % 3)]
  else
    let PM := S.Panels E.iMPanel
    let iQM := E.MIndex
    [nea, PP.EI ((iQP + 1) % 3), PP.EI ((iQP + 2) % 3),
     PM.EI ((iQM + 1) % 3), PM.EI ((iQM + 2) % 3)]

/-- The panel support of a basis function: its positive panel plus its
negative panel when present. -/
def panelSupport (E : RWGEdge) : List ℤ :=
  E.iPPanel :: (if E.iMPanel = -1 then [] else [E.iMPanel])

/-- Disjointness of panel supports, plus well-formedness of the positive
panel indices (a positive panel index is never the -1 sentinel). -/
def DisjointSupport (S : RWGSurface) (neAlpha neBeta : ℤ) : Prop :=
  0 ≤ (S.Edges neAlpha).iPPanel ∧ 0 ≤ (S.Edges neBeta).iPPanel ∧
  ∀ p ∈ panelSupport (S.Edges neAlpha), p ∉ panelSupport (S.Edges neBeta)

/-- Mesh-consistency of one edge: its hub-vertex slots are in range and
the adjoining panels list it in `EI` opposite the hub vertex.  These
facts are established by the (out-of-scope) mesh loader. -/
def EdgeConsistent (S : RWGSurface) (ne : ℤ) : Prop :=
  let E := S.Edges ne
  0 ≤ E.iPPanel ∧ (0 ≤ E.PIndex ∧ E.PIndex < 3) ∧
  (S.Panels E.iPPanel).EI E.PIndex = ne ∧
  (E.iMPanel ≠ -1 →
    (0 ≤ E.MIndex ∧ E.MIndex < 3) ∧ (S.Panels E.iMPanel).EI E.MIndex = ne)

instance (S : RWGSurface) (neAlpha neBeta : ℤ) :
    Decidable (DisjointSupport S neAlpha neBeta) := by
  unfold DisjointSupport; infer_instance

instance (S : RWGSurface) (ne : ℤ) : Decidable (EdgeConsistent S ne) := by
  unfold EdgeConsistent; infer_instance

/-- If none of the four panel-sharing guards of `GetOverlaps` holds, all
20 outputs stay at their zero initialization. -/
theorem overlaps_zero_of_no_guard (S : RWGSurface) (nea neb : ℤ)
    (h1 : (S.Edges nea).iPPanel ≠ (S.Edges neb).iPPanel)
    (h2 : (S.Edges nea).iPPanel ≠ (S.Edges neb).iMPanel)
    (h3 : ¬((S.Edges nea).iMPanel ≠ -1 ∧ (S.Edges nea).iMPanel = (S.Edges neb).iPPanel))
    (h4 : ¬((S.Edges nea).iMPanel ≠ -1 ∧ (S.Edges nea).iMPanel = (S.Edges neb).iMPanel)) :
    ∀ i, GetOverlaps S nea neb i = 0 := by
  intro i
  simp only [GetOverlaps, if_neg h1, if_neg h2, if_neg h3, if_neg h4]

/-- C3: for every two RWG basis functions on the same surface whose panel
supports are disjoint (no panel index shared between their
positive/negative panels), `GetOverlaps` returns all 20 overlap outputs
exactly zero. -/
theorem claim_C3_overlaps_disjoint_support_zero (S : RWGSurface) (nea neb : ℤ)
    (h : DisjointSupport S nea neb) :
    ∀ i, GetOverlaps S nea neb i = 0 := by
  obtain ⟨hPa, hPb, hd⟩ := h
  have memPA : (S.Edges nea).iPPanel ∈ panelSupport (S.Edges nea) :=
    List.mem_cons_self _ _
  have memPB : (S.Edges neb).iPPanel ∈ panelSupport (S.Edges neb) :=
    List.mem_cons_self _ _
  have h1 : (S.Edges nea).iPPanel ≠ (S.Edges neb).iPPanel := by
    intro he; exact hd _ memPA (by rw [he]; exact memPB)
  have h2 : (S.Edges nea).iPPanel ≠ (S.Edges neb).iMPanel := by
    intro he
    have hmb : (S.Edges neb).iMPanel ≠ -1 := by omega
    refine hd _ memPA ?_
    unfold panelSupport
    rw [if_neg hmb, he]
    simp
  have h3 : ¬((S.Edges nea).iMPanel ≠ -1 ∧ (S.Edges nea).iMPanel = (S.Edges neb).iPPanel) := by
    rintro ⟨hma, he⟩
    have hinA : (S.Edges nea).iMPanel ∈ panelSupport (S.Edges nea) := by
      unfold panelSupport; rw [if_neg hma]; simp
    exact hd _ hinA (by rw [he]; exact memPB)
  have h4 : ¬((S.Edges nea).iMPanel ≠ -1 ∧ (S.Edges nea).iMPanel = (S.Edges neb).iMPanel) := by
    rintro ⟨hma, he⟩
    have hmb : (S.Edges neb).iMPanel ≠ -1 := by rw [← he]; exact hma
    have hinA : (S.Edges nea).iMPanel ∈ panelSupport (S.Edges nea) := by
      unfold panelSupport; rw [if_neg hma]; simp
    have hinB : (S.Edges nea).iMPanel ∈ panelSupport (S.Edges neb) := by
      unfold panelSupport; rw [if_neg hmb, he]; simp
    exact hd _ hinA hinB
  exact overlaps_zero_of_no_guard S nea neb h1 h2 h3 h4

/-!  ## A concrete two-triangle mesh for witnesses

Vertices: `v0 = (-1,0,0)`, `v1 = (0,0,0)`, `v2 = (0,1,0)`, `v3 = (1,0,0)`.
Panel 0 = `(v0,v1,v2)`, panel 1 = `(v1,v3,v2)`, sharing edge `(v1,v2)`.
Edge 0 is the shared interior edge; edges 1-4 are boundary edges. -/

def panelW0 : RWGPanel :=
  { VI := fun j => if j = 0 then 0 else if j = 1 then 1 else 2
    EI := fun j => if j = 0 then 0 else if j = 1 then 1 else 2
    ZHat := ⟨0, 0, 1⟩
    Area := 1/2 }

def panelW1 : RWGPanel :=
  { VI := fun j => if j = 0 then 1 else if j = 1 then 3 else 2
    EI := fun j => if j = 0 then 3 else if j = 1 then 0 else 4
    ZHat := ⟨0, 0, 1⟩
    Area := 1/2 }

def edgeW0 : RWGEdge :=
  { iQP := 0, iV1 := 1, iV2 := 2, iQM := 3
    iPPanel := 0, iMPanel := 1, PIndex := 0, MIndex := 1, Length := 1 }

def edgeW1 : RWGEdge :=
  { iQP := 1, iV1 := 0, iV2 := 2, iQM := -1
    iPPanel := 0, iMPanel := -1, PIndex := 1, MIndex := -1, Length := 2 }

def edgeW2 : RWGEdge :=
  { iQP := 2, iV1 := 0, iV2 := 1, iQM := -1
    iPPanel := 0, iMPanel := -1, PIndex := 2, MIndex := -1, Length := 1 }

def edgeW3 : RWGEdge :=
  { iQP := 1, iV1 := 3, iV2 := 2, iQM := -1
    iPPanel := 1, iMPanel := -1, PIndex := 0, MIndex := -1, Length := 2 }

def edgeW4 : RWGEdge :=
  { iQP := 2, iV1 := 1, iV2 := 3, iQM := -1
    iPPanel := 1, iMPanel := -1, PIndex := 2, MIndex := -1, Length := 1 }

def meshW : RWGSurface :=
  { Vertices := fun i =>
      if i = 0 then ⟨-1, 0, 0⟩ else if i = 1 then ⟨0, 0, 0⟩
      else if i = 2 then ⟨0, 1, 0⟩ else ⟨1, 0, 0⟩
    Panels := fun p => if p = 0 then panelW0 else panelW1
    Edges := fun ne =>
      if ne = 0 then edgeW0 else if ne = 1 then edgeW1
      else if ne = 2 then edgeW2 else if ne = 3 then edgeW3 else edgeW4
    NumEdges := 5
    IsPEC := false
    RegionIndices := fun i => if i = 0 then 0 else 1
    OTGT := none
    GT := none }

/-- Witness for C3: edges 1 and 3 of the concrete mesh live on different
panels, and all 20 of their overlaps evaluate to zero. -/
theorem claim_C3_witness :
    DisjointSupport meshW 1 3 ∧ ∀ i, GetOverlaps meshW 1 3 i = 0 :=
  ⟨by decide, claim_C3_overlaps_disjoint_support_zero meshW 1 3 (by decide)⟩

/-- C4: `GetOverlappingEdgeIndices` returns `nea` itself plus the other
two edges of each adjoining panel (3 entries for a boundary edge, 5
otherwise), and — given the mesh-loader consistency facts — this list
contains every basis function `neb` whose overlaps with `nea` are not
identically zero. -/
theorem claim_C4_overlapping_edge_indices (S : RWGSurface) (nea : ℤ)
    (hA : EdgeConsistent S nea) :
    (GetOverlappingEdgeIndices S nea).length =
        (if (S.Edges nea).iMPanel = -1 then 3 else 5) ∧
    nea ∈ GetOverlappingEdgeIndices S nea ∧
    ∀ neb, EdgeConsistent S neb →
      (∃ i, GetOverlaps S nea neb i ≠ 0) →
      neb ∈ GetOverlappingEdgeIndices S nea := by
  refine ⟨?_, ?_, ?_⟩
  · simp only [GetOverlappingEdgeIndices]
    split <;> simp
  · simp only [GetOverlappingEdgeIndices]
    split <;> simp
  · intro neb hB hnz
    simp only [EdgeConsistent] at hA hB
    obtain ⟨hPa, ⟨hPiA0, hPiA3⟩, hEIa, hMa⟩ := hA
    obtain ⟨hPb, ⟨hPiB0, hPiB3⟩, hEIb, hMb⟩ := hB
    by_cases g1 : (S.Edges nea).iPPanel = (S.Edges neb).iPPanel
    · have hh : (S.Panels (S.Edges nea).iPPanel).EI (S.Edges neb).PIndex = neb := by
        rw [g1]; exact hEIb
      have ht : (S.Edges neb).PIndex = (S.Edges nea).PIndex ∨
          (S.Edges neb).PIndex = ((S.Edges nea).PIndex + 1) % 3 ∨
          (S.Edges neb).PIndex = ((S.Edges nea).PIndex + 2) % 3 := by omega
      simp only [GetOverlappingEdgeIndices]
      rcases ht with ht | ht | ht
      · have hne : neb = nea := by rw [← hh, ht, hEIa]
        split <;> simp [hne]
      · have hmem : neb = (S.Panels (S.Edges nea).iPPanel).EI (((S.Edges nea).PIndex + 1) % 3) := by
          rw [← hh, ht]
        split <;> (rw [hmem]; simp)
      · have hmem : neb = (S.Panels (S.Edges nea).iPPanel).EI (((S.Edges nea).PIndex + 2) % 3) := by
          rw [← hh, ht]
        split <;> (rw [hmem]; simp)
    · by_cases g2 : (S.Edges nea).iPPanel = (S.Edges neb).iMPanel
      · have hmb : (S.Edges neb).iMPanel ≠ -1 := by omega
        obtain ⟨⟨hMiB0, hMiB3⟩, hEIbM⟩ := hMb hmb
        have hh : (S.Panels (S.Edges nea).iPPanel).EI (S.Edges neb).MIndex = neb := by
          rw [g2]; exact hEIbM
        have ht : (S.Edges neb).MIndex = (S.Edges nea).PIndex ∨
            (S.Edges neb).MIndex = ((S.Edges nea).PIndex + 1) % 3 ∨
            (S.Edges neb).MIndex = ((S.Edges nea).PIndex + 2) % 3 := by omega
        simp only [GetOverlappingEdgeIndices]
        rcases ht with ht | ht | ht
        · have hne : neb = nea := by rw [← hh, ht, hEIa]
          split <;> simp [hne]
        · have hmem : neb = (S.Panels (S.Edges nea).iPPanel).EI (((S.Edges nea).PIndex + 1) % 3) := by
            rw [← hh, ht]
          split <;> (rw [hmem]; simp)
        · have hmem : neb = (S.Panels (S.Edges nea).iPPanel).EI (((S.Edges nea).PIndex + 2) % 3) := by
            rw [← hh, ht]
          split <;> (rw [hmem]; simp)
      · by_cases g3 : (S.Edges nea).iMPanel ≠ -1 ∧ (S.Edges nea).iMPanel = (S.Edges neb).iPPanel
        · obtain ⟨hma, he⟩ := g3
          obtain ⟨⟨hMiA0, hMiA3⟩, hEIaM⟩ := hMa hma
          have hh : (S.Panels (S.Edges nea).iMPanel).EI (S.Edges neb).PIndex = neb := by
            rw [he]; exact hEIb
          have ht : (S.Edges neb).PIndex = (S.Edges nea).MIndex ∨
              (S.Edges neb).PIndex = ((S.Edges nea).MIndex + 1) % 3 ∨
              (S.Edges neb).PIndex = ((S.Edges nea).MIndex + 2) % 3 := by omega
          simp only [GetOverlappingEdgeIndices]
          rw [if_neg hma]
          rcases ht with ht | ht | ht
          · have hne : neb = nea := by rw [← hh, ht, hEIaM]
            simp [hne]
          · have hmem : neb = (S.Panels (S.Edges nea).iMPanel).EI (((S.Edges nea).MIndex + 1) % 3) := by
              rw [← hh, ht]
            rw [hmem]; simp
          · have hmem : neb = (S.Panels (S.Edges nea).iMPanel).EI (((S.Edges nea).MIndex + 2) % 3) := by
              rw [← hh, ht]
            rw [hmem]; simp
        · by_cases g4 : (S.Edges nea).iMPanel ≠ -1 ∧ (S.Edges nea).iMPanel = (S.Edges neb).iMPanel
          · obtain ⟨hma, he⟩ := g4
            obtain ⟨⟨hMiA0, hMiA3⟩, hEIaM⟩ := hMa hma
            have hmb : (S.Edges neb).iMPanel ≠ -1 := by omega
            obtain ⟨⟨hMiB0, hMiB3⟩, hEIbM⟩ := hMb hmb
            have hh : (S.Panels (S.Edges nea).iMPanel).EI (S.Edges neb).MIndex = neb := by
              rw [he]; exact hEIbM
            have ht : (S.Edges neb).MIndex = (S.Edges nea).MIndex ∨
                (S.Edges neb).MIndex = ((S.Edges nea).MIndex + 1) % 3 ∨
                (S.Edges neb).MIndex = ((S.Edges nea).MIndex + 2) % 3 := by omega
            simp only [GetOverlappingEdgeIndices]
            rw [if_neg hma]
            rcases ht with ht | ht | ht
            · have hne : neb = nea := by rw [← hh, ht, hEIaM]
              simp [hne]
            · have hmem : neb = (S.Panels (S.Edges nea).iMPanel).EI (((S.Edges nea).MIndex + 1) % 3) := by
                rw [← hh, ht]
              rw [hmem]; simp
            · have hmem : neb = (S.Panels (S.Edges nea).iMPanel).EI (((S.Edges nea).MIndex + 2) % 3) := by
                rw [← hh, ht]
              rw [hmem]; simp
          · obtain ⟨i, hi⟩ := hnz
            exact absurd (overlaps_zero_of_no_guard S nea neb g1 g2 g3 g4 i) hi

/-- Witness for C4: on the concrete mesh, edge 0 is interior (5 returned
indices), the list contains edge 0 itself, and the overlapping edge 1 is
found in the list. -/
theorem claim_C4_witness :
    EdgeConsistent meshW 0 ∧ EdgeConsistent meshW 1 ∧
    (GetOverlappingEdgeIndices meshW 0).length = 5 ∧
    (0 : ℤ) ∈ GetOverlappingEdgeIndices meshW 0 ∧
    (1 : ℤ) ∈ GetOverlappingEdgeIndices meshW 0 := by
  have h := claim_C4_overlapping_edge_indices meshW 0 (by decide)
  refine ⟨by decide, by decide, ?_, h.2.1, ?_⟩
  · rw [h.1]; decide
  · refine h.2.2 1 (by decide) ⟨1, ?_⟩
    norm_num [GetOverlaps, AddOverlapContributions, meshW, panelW0, panelW1,
      edgeW0, edgeW1, VecSub, VecCross, VecDot, Matrix.cons_val_one,
      Matrix.head_cons]

/-!  ## Cubature matrix-element integrator (EPPFT.cc lines 96-255) -/

instance : Sub CVec3 := ⟨fun a b => ⟨a.c0 - b.c0, a.c1 - b.c1, a.c2 - b.c2⟩⟩

@[simp] theorem CVec3.sub_c0 (a b : CVec3) : (a - b).c0 = a.c0 - b.c0 := rfl
@[simp] theorem CVec3.sub_c1 (a b : CVec3) : (a - b).c1 = a.c1 - b.c1 := rfl
@[simp] theorem CVec3.sub_c2 (a b : CVec3) : (a - b).c2 = a.c2 - b.c2 := rfl

/-- The four pairs of reduced fields fetched at one cubature point by the
four `GetReducedFields_Nearby` calls (source side P/M × field side P/M). -/
structure PV where
  ePP : CVec3
  hPP : CVec3
  ePM : CVec3
  hPM : CVec3
  eMP : CVec3
  hMP : CVec3
  eMM : CVec3
  hMM : CVec3
deriving DecidableEq

/-- The 8 quantities (two scalars and eight 3-vectors as stored in the
C output arrays) produced by the EPPFT matrix-element integrators. -/
structure CubOut where
  be : Cplx
  bh : Cplx
  divbe : CVec3
  divbh : CVec3
  bxe : CVec3
  bxh : CVec3
  divbrxe : CVec3
  divbrxh : CVec3
  rxbxe : CVec3
  rxbxh : CVec3
deriving DecidableEq

def listCSum (l : List Cplx) : Cplx := l.foldl (· + ·) 0

def listCVSum (l : List CVec3) : CVec3 := l.foldl (· + ·) 0

def sum3 (f : Fin 3 → Cplx) : Cplx := f 0 + f 1 + f 2

/-- Apply an optional geometric transform (`GTransformation::Apply`). -/
def applyT (t : Option (Vec3 → Vec3)) (x : Vec3) : Vec3 :=
  match t with
  | none => x
  | some f => f x

/-- The per-edge geometric data the cubature integrator reads before its
point loop: the four defining vertices of edge `Ea`, the transformed
torque center `X0`, and the edge length. -/
structure EdgeGeom where
  QP : Vec3
  V1 : Vec3
  V2 : Vec3
  QM : Vec3
  X0 : Vec3
  len : ℚ

def EdgeGeom.ofEdge (S : RWGSurface) (Ea : RWGEdge) : EdgeGeom :=
  { QP := S.Vertices Ea.iQP
    V1 := S.Vertices Ea.iV1
    V2 := S.Vertices Ea.iV2
    QM := S.Vertices Ea.iQM
    X0 := applyT S.GT (applyT S.OTGT ⟨0, 0, 0⟩)
    len := Ea.Length }

/-- `u += v` applied to the first barycentric coordinate of a rule entry. -/
def cubU (p : ℚ × ℚ × ℚ) : ℚ := p.1 + p.2.1

/-- Cubature weight scaled by the source edge length. -/
def cubW (g : EdgeGeom) (p : ℚ × ℚ × ℚ) : ℚ := p.2.2 * g.len

def bPlusAt (g : EdgeGeom) (p : ℚ × ℚ × ℚ) : Vec3 :=
  VecAdd (VecScale (cubU p) (VecSub g.V1 g.QP)) (VecScale p.2.1 (VecSub g.V2 g.V1))

def bMinusAt (g : EdgeGeom) (p : ℚ × ℚ × ℚ) : Vec3 :=
  VecAdd (VecScale (cubU p) (VecSub g.V1 g.QM)) (VecScale p.2.1 (VecSub g.V2 g.V1))

def XPlusAt (g : EdgeGeom) (p : ℚ × ℚ × ℚ) : Vec3 := VecAdd (bPlusAt g p) g.QP

def XMinusAt (g : EdgeGeom) (p : ℚ × ℚ × ℚ) : Vec3 := VecAdd (bMinusAt g p) g.QM

def XPmX0At (g : EdgeGeom) (p : ℚ × ℚ × ℚ) : Vec3 := VecSub (XPlusAt g p) g.X0

def XMmX0At (g : EdgeGeom) (p : ℚ × ℚ × ℚ) : Vec3 := VecSub (XMinusAt g p) g.X0

/-- The field value of sub-pair (A, B): A = source panel side (0 = the
points on the positive panel of `Ea`), B = field panel side of `Eb`. -/
def pvE (A B : Fin 2) (x : PV) : CVec3 :=
  if A = 0 then (if B = 0 then x.ePP else x.ePM)
  else (if B = 0 then x.eMP else x.eMM)

def pvH (A B : Fin 2) (x : PV) : CVec3 :=
  if A = 0 then (if B = 0 then x.hPP else x.hPM)
  else (if B = 0 then x.hMP else x.hMM)

/-- The signed coefficients `PP, PM, MP, MM` (EPPFT.cc lines 132-135):
zero when the corresponding panel pair is masked out. -/
def maskCoef (mask : Fin 2 → Fin 2 → Bool) (A B : Fin 2) : ℚ :=
  if A = 0 then
    (if B = 0 then (if mask 0 0 then 0 else 1) else (if mask 0 1 then 0 else -1))
  else
    (if B = 0 then (if mask 1 0 then 0 else -1) else (if mask 1 1 then 0 else 1))

/-- The source-side basis-function value used with sub-pair row A. -/
def bSel (g : EdgeGeom) (p : ℚ × ℚ × ℚ) (A : Fin 2) : Vec3 :=
  if A = 0 then bPlusAt g p else bMinusAt g p

def beTerm (g : EdgeGeom) (p : ℚ × ℚ × ℚ) (pv : PV) : Cplx :=
  let w := cubW g p
  let bP := bPlusAt g p
  let bM := bMinusAt g p
  let eP := pv.ePP - pv.ePM
  let eM := pv.eMP - pv.eMM
  sum3 fun Mu => CQ w * (CQ (bP.get Mu) * eP.get Mu - CQ (bM.get Mu) * eM.get Mu)

def bhTerm (g : EdgeGeom) (p : ℚ × ℚ × ℚ) (pv : PV) : Cplx :=
  let w := cubW g p
  let bP := bPlusAt g p
  let bM := bMinusAt g p
  let hP := pv.hPP - pv.hPM
  let hM := pv.hMP - pv.hMM
  sum3 fun Mu => CQ w * (CQ (bP.get Mu) * hP.get Mu - CQ (bM.get Mu) * hM.get Mu)

def divbeTerm (mask : Fin 2 → Fin 2 → Bool) (g : EdgeGeom) (p : ℚ × ℚ × ℚ) (pv : PV) : CVec3 :=
  CVec3.mk3 fun Mu => CQ (2 * cubW g p) *
    (CQ (maskCoef mask 0 0) * (pvE 0 0 pv).get Mu
     + CQ (maskCoef mask 0 1) * (pvE 0 1 pv).get Mu
     + CQ (maskCoef mask 1 0) * (pvE 1 0 pv).get Mu
     + CQ (maskCoef mask 1 1) * (pvE 1 1 pv).get Mu)

def divbhTerm (mask : Fin 2 → Fin 2 → Bool) (g : EdgeGeom) (p : ℚ × ℚ × ℚ) (pv : PV) : CVec3 :=
  CVec3.mk3 fun Mu => CQ (2 * cubW g p) *
    (CQ (maskCoef mask 0 0) * (pvH 0 0 pv).get Mu
     + CQ (maskCoef mask 0 1) * (pvH 0 1 pv).get Mu
     + CQ (maskCoef mask 1 0) * (pvH 1 0 pv).get Mu
     + CQ (maskCoef mask 1 1) * (pvH 1 1 pv).get Mu)

def bxeTerm (mask : Fin 2 → Fin 2 → Bool) (g : EdgeGeom) (p : ℚ × ℚ × ℚ) (pv : PV) : CVec3 :=
  CVec3.mk3 fun Mu =>
    CQ (cubW g p) *
      (CQ (maskCoef mask 0 0) * (CQ ((bSel g p 0).get (Mu + 1)) * (pvE 0 0 pv).get (Mu + 2)
                                 - CQ ((bSel g p 0).get (Mu + 2)) * (pvE 0 0 pv).get (Mu + 1))
       + CQ (maskCoef mask 0 1) * (CQ ((bSel g p 0).get (Mu + 1)) * (pvE 0 1 pv).get (Mu + 2)
                                 - CQ ((bSel g p 0).get (Mu + 2)) * (pvE 0 1 pv).get (Mu + 1))
       + CQ (maskCoef mask 1 0) * (CQ ((bSel g p 1).get (Mu + 1)) * (pvE 1 0 pv).get (Mu + 2)
                                 - CQ ((bSel g p 1).get (Mu + 2)) * (pvE 1 0 pv).get (Mu + 1))
       + CQ (maskCoef mask 1 1) * (CQ ((bSel g p 1).get (Mu + 1)) * (pvE 1 1 pv).get (Mu + 2)
                                 - CQ ((bSel g p 1).get (Mu + 2)) * (pvE 1 1 pv).get (Mu + 1)))

def bxhTerm (g : EdgeGeom) (p : ℚ × ℚ × ℚ) (pv : PV) : CVec3 :=
  let w := cubW g p
  let bP := bPlusAt g p
  let bM := bMinusAt g p
  let hP := pv.hPP - pv.hPM
  let hM := pv.hMP - pv.hMM
  CVec3.mk3 fun Mu =>
    CQ w * ((CQ (bP.get (Mu + 1)) * hP.get (Mu + 2) - CQ (bP.get (Mu + 2)) * hP.get (Mu + 1))
          - (CQ (bM.get (Mu + 1)) * hM.get (Mu + 2) - CQ (bM.get (Mu + 2)) * hM.get (Mu + 1)))

def divbrxeTerm (g : EdgeGeom) (p : ℚ × ℚ × ℚ) (pv : PV) : CVec3 :=
  let w := cubW g p
  let XP := XPmX0At g p
  let XM := XMmX0At g p
  let eP := pv.ePP - pv.ePM
  let eM := pv.eMP - pv.eMM
  CVec3.mk3 fun Mu =>
    CQ w * ((CQ (XP.get (Mu + 1)) * eP.get (Mu + 2) - CQ (XP.get (Mu + 2)) * eP.get (Mu + 1))
          - (CQ (XM.get (Mu + 1)) * eM.get (Mu + 2) - CQ (XM.get (Mu + 2)) * eM.get (Mu + 1)))

def divbrxhTerm (g : EdgeGeom) (p : ℚ × ℚ × ℚ) (pv : PV) : CVec3 :=
  let w := cubW g p
  let XP := XPmX0At g p
  let XM := XMmX0At g p
  let hP := pv.hPP - pv.hPM
  let hM := pv.hMP - pv.hMM
  CVec3.mk3 fun Mu =>
    CQ w * ((CQ (XP.get (Mu + 1)) * hP.get (Mu + 2) - CQ (XP.get (Mu + 2)) * hP.get (Mu + 1))
          - (CQ (XM.get (Mu + 1)) * hM.get (Mu + 2) - CQ (XM.get (Mu + 2)) * hM.get (Mu + 1)))

def rxbxeTerm (g : EdgeGeom) (p : ℚ × ℚ × ℚ) (pv : PV) : CVec3 :=
  let w := cubW g p
  let bP := bPlusAt g p
  let bM := bMinusAt g p
  let XP := XPmX0At g p
  let XM := XMmX0At g p
  let eP := pv.ePP - pv.ePM
  let eM := pv.eMP - pv.eMM
  let XPdote := sum3 fun m => CQ (XP.get m) * eP.get m
  let XMdote := sum3 fun m => CQ (XM.get m) * eM.get m
  let XPdotb := VecDot XP bP
  let XMdotb := VecDot XM bM
  CVec3.mk3 fun Mu =>
    CQ w * ((CQ (bP.get Mu) * XPdote - eP.get Mu * CQ XPdotb)
          - (CQ (bM.get Mu) * XMdote - eM.get Mu * CQ XMdotb))

def rxbxhTerm (g : EdgeGeom) (p : ℚ × ℚ × ℚ) (pv : PV) : CVec3 :=
  let w := cubW g p
  let bP := bPlusAt g p
  let bM := bMinusAt g p
  let XP := XPmX0At g p
  let XM := XMmX0At g p
  let hP := pv.hPP - pv.hPM
  let hM := pv.hMP - pv.hMM
  let XPdoth := sum3 fun m => CQ (XP.get m) * hP.get m
  let XMdoth := sum3 fun m => CQ (XM.get m) * hM.get m
  let XPdotb := VecDot XP bP
  let XMdotb := VecDot XM bM
  CVec3.mk3 fun Mu =>
    CQ w * ((CQ (bP.get Mu) * XPdoth - hP.get Mu * CQ XPdotb)
          - (CQ (bM.get Mu) * XMdoth - hM.get Mu * CQ XMdotb))

/-- The accumulation stage of `GetEPPFTMatrixElements_Cubature`: each of
the 8 output quantities is the sum of its per-point terms over the
cubature rule, given the already-fetched field values of each point. -/
def cubCombine (g : EdgeGeom) (mask : Fin 2 → Fin 2 → Bool)
    (pvs : List ((ℚ × ℚ × ℚ) × PV)) : CubOut :=
  { be := listCSum (pvs.map fun pp => beTerm g pp.1 pp.2)
    bh := listCSum (pvs.map fun pp => bhTerm g pp.1 pp.2)
    divbe := listCVSum (pvs.map fun pp => divbeTerm mask g pp.1 pp.2)
    divbh := listCVSum (pvs.map fun pp => divbhTerm mask g pp.1 pp.2)
    bxe := listCVSum (pvs.map fun pp => bxeTerm mask g pp.1 pp.2)
    bxh := listCVSum (pvs.map fun pp => bxhTerm g pp.1 pp.2)
    divbrxe := listCVSum (pvs.map fun pp => divbrxeTerm g pp.1 pp.2)
    divbrxh := listCVSum (pvs.map fun pp => divbrxhTerm g pp.1 pp.2)
    rxbxe := listCVSum (pvs.map fun pp => rxbxeTerm g pp.1 pp.2)
    rxbxh := listCVSum (pvs.map fun pp => rxbxhTerm g pp.1 pp.2) }

/-- The evaluation stage: the four reduced-field fetches per cubature
point (EPPFT.cc lines 188-191). -/
def evalPVList (ext : ExtEnv) (nsb : ℤ) (Eb : RWGEdge) (k : Cplx)
    (g : EdgeGeom) (rule : List (ℚ × ℚ × ℚ)) : List ((ℚ × ℚ × ℚ) × PV) :=
  rule.map fun p =>
    let rPP := ext.grf nsb Eb.iPPanel Eb.PIndex (XPlusAt g p) k
    let rPM := ext.grf nsb Eb.iMPanel Eb.MIndex (XPlusAt g p) k
    let rMP := ext.grf nsb Eb.iPPanel Eb.PIndex (XMinusAt g p) k
    let rMM := ext.grf nsb Eb.iMPanel Eb.MIndex (XMinusAt g p) k
    (p, { ePP := rPP.1, hPP := rPP.2, ePM := rPM.1, hPM := rPM.2,
          eMP := rMP.1, hMP := rMP.2, eMM := rMM.1, hMM := rMM.2 })

/-- `GetEPPFTMatrixElements_Cubature` (EPPFT.cc lines 96-255): fetch the
edge geometry, walk the cubature rule fetching reduced fields, and
accumulate the 8 outputs with the mask-killed `PP/PM/MP/MM` signs. -/
def GetEPPFTMatrixElements_Cubature (ext : ExtEnv) (G : RWGGeometry)
    (nsa nsb nea neb : ℤ) (k : Cplx) (mask : Fin 2 → Fin 2 → Bool)
    (Order : ℕ) : CubOut :=
  let S := G.Surfaces nsa
  let Ea := S.Edges nea
  let Eb := S.Edges neb
  let g := EdgeGeom.ofEdge S Ea
  cubCombine g mask (evalPVList ext nsb Eb k g (ext.tcr Order))

/-- Agreement of two per-point field records everywhere except possibly
at sub-pair (A, B): the notion of the (A, B) sub-pair being the only
data allowed to change. -/
def PVAgreeExcept (A B : Fin 2) (x y : PV) : Prop :=
  ∀ A2 B2 : Fin 2, ¬(A2 = A ∧ B2 = B) →
    pvE A2 B2 x = pvE A2 B2 y ∧ pvH A2 B2 x = pvH A2 B2 y

/-- Pointwise agreement of two evaluated cubature lists except at
sub-pair (A, B): same cubature points, fields agreeing off (A, B). -/
def cubAgreeExcept (A B : Fin 2) (a b : (ℚ × ℚ × ℚ) × PV) : Prop :=
  a.1 = b.1 ∧ PVAgreeExcept A B a.2 b.2

theorem maskCoef_eq_zero (mask : Fin 2 → Fin 2 → Bool) (A B : Fin 2)
    (hm : mask A B = true) : maskCoef mask A B = 0 := by
  fin_cases A <;> fin_cases B <;> simp_all [maskCoef]

theorem slot_e_agree (mask : Fin 2 → Fin 2 → Bool) (A B A2 B2 : Fin 2)
    (hm : mask A B = true) (x y : PV) (hxy : PVAgreeExcept A B x y) (Mu : Fin 3) :
    CQ (maskCoef mask A2 B2) * (pvE A2 B2 x).get Mu
      = CQ (maskCoef mask A2 B2) * (pvE A2 B2 y).get Mu := by
  by_cases h : A2 = A ∧ B2 = B
  · obtain ⟨h1, h2⟩ := h
    subst h1; subst h2
    rw [maskCoef_eq_zero mask A2 B2 hm]
    simp
  · rw [(hxy A2 B2 h).1]

theorem slot_h_agree (mask : Fin 2 → Fin 2 → Bool) (A B A2 B2 : Fin 2)
    (hm : mask A B = true) (x y : PV) (hxy : PVAgreeExcept A B x y) (Mu : Fin 3) :
    CQ (maskCoef mask A2 B2) * (pvH A2 B2 x).get Mu
      = CQ (maskCoef mask A2 B2) * (pvH A2 B2 y).get Mu := by
  by_cases h : A2 = A ∧ B2 = B
  · obtain ⟨h1, h2⟩ := h
    subst h1; subst h2
    rw [maskCoef_eq_zero mask A2 B2 hm]
    simp
  · rw [(hxy A2 B2 h).2]

theorem slot_bxe_agree (mask : Fin 2 → Fin 2 → Bool) (A B A2 B2 : Fin 2)
    (hm : mask A B = true) (g : EdgeGeom) (p : ℚ × ℚ × ℚ) (x y : PV)
    (hxy : PVAgreeExcept A B x y) (Mu : Fin 3) :
    CQ (maskCoef mask A2 B2) * (CQ ((bSel g p A2).get (Mu + 1)) * (pvE A2 B2 x).get (Mu + 2)
        - CQ ((bSel g p A2).get (Mu + 2)) * (pvE A2 B2 x).get (Mu + 1))
      = CQ (maskCoef mask A2 B2) * (CQ ((bSel g p A2).get (Mu + 1)) * (pvE A2 B2 y).get (Mu + 2)
        - CQ ((bSel g p A2).get (Mu + 2)) * (pvE A2 B2 y).get (Mu + 1)) := by
  by_cases h : A2 = A ∧ B2 = B
  · obtain ⟨h1, h2⟩ := h
    subst h1; subst h2
    rw [maskCoef_eq_zero mask A2 B2 hm]
    simp
  · rw [(hxy A2 B2 h).1]

theorem divbeTerm_agree (mask : Fin 2 → Fin 2 → Bool) (A B : Fin 2)
    (hm : mask A B = true) (g : EdgeGeom) (p : ℚ × ℚ × ℚ) (x y : PV)
    (hxy : PVAgreeExcept A B x y) :
    divbeTerm mask g p x = divbeTerm mask g p y := by
  unfold divbeTerm
  apply CVec3.eqComps <;>
    (simp only [CVec3.mk3]
     rw [slot_e_agree mask A B 0 0 hm x y hxy, slot_e_agree mask A B 0 1 hm x y hxy,
         slot_e_agree mask A B 1 0 hm x y hxy, slot_e_agree mask A B 1 1 hm x y hxy])

theorem divbhTerm_agree (mask : Fin 2 → Fin 2 → Bool) (A B : Fin 2)
    (hm : mask A B = true) (g : EdgeGeom) (p : ℚ × ℚ × ℚ) (x y : PV)
    (hxy : PVAgreeExcept A B x y) :
    divbhTerm mask g p x = divbhTerm mask g p y := by
  unfold divbhTerm
  apply CVec3.eqComps <;>
    (simp only [CVec3.mk3]
     rw [slot_h_agree mask A B 0 0 hm x y hxy, slot_h_agree mask A B 0 1 hm x y hxy,
         slot_h_agree mask A B 1 0 hm x y hxy, slot_h_agree mask A B 1 1 hm x y hxy])

theorem bxeTerm_agree (mask : Fin 2 → Fin 2 → Bool) (A B : Fin 2)
    (hm : mask A B = true) (g : EdgeGeom) (p : ℚ × ℚ × ℚ) (x y : PV)
    (hxy : PVAgreeExcept A B x y) :
    bxeTerm mask g p x = bxeTerm mask g p y := by
  unfold bxeTerm
  apply CVec3.eqComps <;>
    (simp only [CVec3.mk3]
     rw [slot_bxe_agree mask A B 0 0 hm g p x y hxy, slot_bxe_agree mask A B 0 1 hm g p x y hxy,
         slot_bxe_agree mask A B 1 0 hm g p x y hxy, slot_bxe_agree mask A B 1 1 hm g p x y hxy])

theorem map_congr_forall2 {α β : Type} {R : α → α → Prop} {l l2 : List α}
    (h : List.Forall₂ R l l2) (f : α → β) (hf : ∀ a b, R a b → f a = f b) :
    l.map f = l2.map f := by
  induction h with
  | nil => rfl
  | cons hab htail ih => simp only [List.map_cons]; rw [hf _ _ hab, ih]

/-- C1 (amended): in `GetEPPFTMatrixElements_Cubature` a masked
(source-panel, field-panel) sub-pair contributes exactly zero to the
three outputs `divbe`, `divbh`, `bxe` (the quantities the Taylor-Duffy
integrator replaces): those outputs are unchanged under any change of the
field data of the masked sub-pair.  The remaining outputs are computed by
full cubature regardless of the mask (see the counterexample).  The last
conjunct records that the integrator is exactly the evaluation stage
composed with the accumulation stage the first three conjuncts govern. -/
theorem claim_C1_masked_subpair_no_contribution
    (g : EdgeGeom) (mask : Fin 2 → Fin 2 → Bool) (A B : Fin 2)
    (hm : mask A B = true) (l l2 : List ((ℚ × ℚ × ℚ) × PV))
    (h : List.Forall₂ (cubAgreeExcept A B) l l2) :
    ((cubCombine g mask l).divbe = (cubCombine g mask l2).divbe ∧
     (cubCombine g mask l).divbh = (cubCombine g mask l2).divbh ∧
     (cubCombine g mask l).bxe = (cubCombine g mask l2).bxe) ∧
    ∀ ext G nsa nsb nea neb k Order,
      GetEPPFTMatrixElements_Cubature ext G nsa nsb nea neb k mask Order =
        cubCombine (EdgeGeom.ofEdge (G.Surfaces nsa) ((G.Surfaces nsa).Edges nea)) mask
          (evalPVList ext nsb ((G.Surfaces nsa).Edges neb) k
            (EdgeGeom.ofEdge (G.Surfaces nsa) ((G.Surfaces nsa).Edges nea)) (ext.tcr Order)) := by
  refine ⟨⟨?_, ?_, ?_⟩, fun ext G nsa nsb nea neb k Order => rfl⟩
  · show listCVSum _ = listCVSum _
    refine congrArg listCVSum (map_congr_forall2 h _ ?_)
    rintro ⟨p1, x⟩ ⟨p2, y⟩ ⟨hp, hxy⟩
    cases hp
    exact divbeTerm_agree mask A B hm g p1 x y hxy
  · show listCVSum _ = listCVSum _
    refine congrArg listCVSum (map_congr_forall2 h _ ?_)
    rintro ⟨p1, x⟩ ⟨p2, y⟩ ⟨hp, hxy⟩
    cases hp
    exact divbhTerm_agree mask A B hm g p1 x y hxy
  · show listCVSum _ = listCVSum _
    refine congrArg listCVSum (map_congr_forall2 h _ ?_)
    rintro ⟨p1, x⟩ ⟨p2, y⟩ ⟨hp, hxy⟩
    cases hp
    exact bxeTerm_agree mask A B hm g p1 x y hxy

/-- Concrete edge geometry for the C1 counterexample. -/
def geomC : EdgeGeom :=
  { QP := ⟨0, 0, 0⟩, V1 := ⟨1, 0, 0⟩, V2 := ⟨0, 1, 0⟩, QM := ⟨0, 0, 1⟩,
    X0 := ⟨0, 0, 0⟩, len := 1 }

/-- Mask omitting exactly the (positive, positive) sub-pair. -/
def maskC : Fin 2 → Fin 2 → Bool := fun A B => decide (A = 0) && decide (B = 0)

/-- Field data whose only nonzero entry sits in the masked sub-pair. -/
def pvC : PV :=
  { ePP := ⟨1, 0, 0⟩, hPP := ⟨0, 0, 0⟩, ePM := ⟨0, 0, 0⟩, hPM := ⟨0, 0, 0⟩,
    eMP := ⟨0, 0, 0⟩, hMP := ⟨0, 0, 0⟩, eMM := ⟨0, 0, 0⟩, hMM := ⟨0, 0, 0⟩ }

/-- The same field data with the masked sub-pair zeroed out. -/
def pvC0 : PV :=
  { ePP := ⟨0, 0, 0⟩, hPP := ⟨0, 0, 0⟩, ePM := ⟨0, 0, 0⟩, hPM := ⟨0, 0, 0⟩,
    eMP := ⟨0, 0, 0⟩, hMP := ⟨0, 0, 0⟩, eMM := ⟨0, 0, 0⟩, hMM := ⟨0, 0, 0⟩ }

theorem pvAgreeC : PVAgreeExcept 0 0 pvC pvC0 := by
  intro A2 B2 hne
  fin_cases A2 <;> fin_cases B2 <;> simp_all [pvE, pvH, pvC, pvC0]

/-- Counterexample for C1 as stated: with the (positive, positive)
sub-pair masked, changing only that sub-pair's field data still changes
the `be` output — so a masked sub-pair does NOT contribute zero to every
one of the 8 outputs, only to `divbe`, `divbh`, `bxe`. -/
theorem claim_C1_counterexample :
    maskC 0 0 = true ∧
    cubAgreeExcept 0 0 ((1/2, 0, 1), pvC) ((1/2, 0, 1), pvC0) ∧
    (cubCombine geomC maskC [((1/2, 0, 1), pvC)]).be ≠
      (cubCombine geomC maskC [((1/2, 0, 1), pvC0)]).be := by
  refine ⟨rfl, ⟨rfl, pvAgreeC⟩, ?_⟩
  intro heq
  have hre := congrArg Cplx.re heq
  norm_num [cubCombine, listCSum, beTerm, sum3, cubW, bPlusAt, bMinusAt, cubU,
    geomC, pvC, pvC0, VecAdd, VecSub, VecScale, Vec3.get, CVec3.get] at hre

/-- Witness for the amended C1 theorem at the concrete inputs of the
counterexample: the three Taylor-Duffy-replaced outputs are unchanged. -/
theorem claim_C1_witness :
    maskC 0 0 = true ∧
    (cubCombine geomC maskC [((1/2, 0, 1), pvC)]).divbe =
      (cubCombine geomC maskC [((1/2, 0, 1), pvC0)]).divbe ∧
    (cubCombine geomC maskC [((1/2, 0, 1), pvC)]).divbh =
      (cubCombine geomC maskC [((1/2, 0, 1), pvC0)]).divbh ∧
    (cubCombine geomC maskC [((1/2, 0, 1), pvC)]).bxe =
      (cubCombine geomC maskC [((1/2, 0, 1), pvC0)]).bxe := by
  have h := claim_C1_masked_subpair_no_contribution geomC maskC 0 0 rfl
    [((1/2, 0, 1), pvC)] [((1/2, 0, 1), pvC0)]
    (List.Forall₂.cons ⟨rfl, pvAgreeC⟩ List.Forall₂.nil)
  exact ⟨rfl, h.1⟩

/-!  ## Taylor-Duffy path of GetEPPFTMatrixElements (EPPFT.cc lines 260-399) -/

/-- The unit vector `nHat` with a 1 in slot Mu (EPPFT.cc lines 299-300). -/
def unitV (Mu : Fin 3) : Vec3 :=
  if Mu = 0 then ⟨1, 0, 0⟩ else if Mu = 1 then ⟨0, 1, 0⟩ else ⟨0, 0, 1⟩

/-- `GetEPPFTMatrixElements_TD` (EPPFT.cc lines 260-309): three
Taylor-Duffy invocations (one per Cartesian direction of `nHat`), each
returning the six requested integrals, combined into the three output
vectors `(divbe, divbh, bxe)`. -/
def GetEPPFTMatrixElements_TD
    (td : ℕ → Cplx → (Fin 3 → Vec3) → Vec3 → (Fin 3 → Vec3) → Vec3 → Vec3 → Fin 6 → Cplx)
    (Va : Fin 3 → Vec3) (Qa : Vec3) (Vb : Fin 3 → Vec3) (Qb : Vec3)
    (ncv : ℕ) (k : Cplx) : CVec3 × CVec3 × CVec3 :=
  let R : Fin 3 → Fin 6 → Cplx := fun Mu => td ncv k Va Qa Vb Qb (unitV Mu)
  (CVec3.mk3 fun Mu => R Mu 0 + R Mu 1 / (k * k),
   CVec3.mk3 fun Mu => R Mu 2,
   CVec3.mk3 fun Mu => R Mu 3 + R Mu 4 / (k * k))

/-- Panel selected by loop index A: positive for A = 0, negative else. -/
def subPanel (E : RWGEdge) (A : Fin 2) : ℤ :=
  if A = 0 then E.iPPanel else E.iMPanel

/-- Hub vertex selected by loop index A. -/
def subQ (S : RWGSurface) (E : RWGEdge) (A : Fin 2) : Vec3 :=
  S.Vertices (if A = 0 then E.iQP else E.iQM)

/-- Running state of the A/B sub-pair loop of `GetEPPFTMatrixElements`
(EPPFT.cc lines 343-378): the omission mask being built, the
`HaveTDContributions` flag, and the three accumulated corrections. -/
structure TDState where
  mask : Fin 2 → Fin 2 → Bool
  haveTD : Bool
  dbe : CVec3
  dbh : CVec3
  dxe : CVec3

def tdInit : TDState :=
  { mask := fun _ _ => false, haveTD := false, dbe := 0, dbh := 0, dxe := 0 }

/-- One iteration of the sub-pair loop: assess the panel pair, and when
it shares at least one vertex mark it for omission and accumulate
`Sign * LL` times the Taylor-Duffy results. -/
def tdStep (ext : ExtEnv) (nsa nsb : ℤ) (Sa Sb : RWGSurface) (Ea Eb : RWGEdge)
    (LL : ℚ) (k : Cplx) (st : TDState) (A B : Fin 2) : TDState :=
  let npa := subPanel Ea A
  let npb := subPanel Eb B
  let r := ext.assess nsa npa nsb npb
  let ncv := r.1
  if 0 < ncv then
    let Qa := subQ Sa Ea A
    let Qb := subQ Sb Eb B
    let d := GetEPPFTMatrixElements_TD ext.td r.2.1 Qa r.2.2 Qb ncv k
    let Sign : ℚ := if A = B then 1 else -1
    { mask := fun A2 B2 => if A2 = A ∧ B2 = B then true else st.mask A2 B2
      haveTD := true
      dbe := st.dbe + CVec3.scale (CQ (Sign * LL)) d.1
      dbh := st.dbh + CVec3.scale (CQ (Sign * LL)) d.2.1
      dxe := st.dxe + CVec3.scale (CQ (Sign * LL)) d.2.2 }
  else st

/-- The four iterations (A, B) = (0,0), (0,1), (1,0), (1,1) in program
order. -/
def tdChain (ext : ExtEnv) (nsa nsb : ℤ) (Sa Sb : RWGSurface) (Ea Eb : RWGEdge)
    (LL : ℚ) (k : Cplx) : TDState :=
  tdStep ext nsa nsb Sa Sb Ea Eb LL k
    (tdStep ext nsa nsb Sa Sb Ea Eb LL k
      (tdStep ext nsa nsb Sa Sb Ea Eb LL k
        (tdStep ext nsa nsb Sa Sb Ea Eb LL k tdInit 0 0) 0 1) 1 0) 1 1

/-- `GetEPPFTMatrixElements` (EPPFT.cc lines 314-399): run the sub-pair
loop when both basis functions live on the same surface and cubature is
not forced, call the cubature integrator with the resulting omission
mask, and add the Taylor-Duffy corrections into `divbe`, `divbh`, `bxe`
when any were computed. -/
def GetEPPFTMatrixElements (ext : ExtEnv) (G : RWGGeometry)
    (nsa nsb nea neb : ℤ) (k : Cplx) (Order : ℕ) : CubOut :=
  let Sa := G.Surfaces nsa
  let Sb := G.Surfaces nsb
  let Ea := Sa.Edges nea
  let Eb := Sb.Edges neb
  let LL := Ea.Length * Eb.Length
  let st :=
    if nsa = nsb ∧ ext.forceCubature = false then
      tdChain ext nsa nsb Sa Sb Ea Eb LL k
    else tdInit
  let cub := GetEPPFTMatrixElements_Cubature ext G nsa nsb nea neb k st.mask Order
  if st.haveTD then
    { cub with divbe := cub.divbe + st.dbe
               divbh := cub.divbh + st.dbh
               bxe := cub.bxe + st.dxe }
  else cub

/-- The omission mask as the spec describes it: a sub-pair is omitted
exactly when the assessor finds at least one common vertex. -/
def tdMaskSpec (ext : ExtEnv) (nsa nsb : ℤ) (Ea Eb : RWGEdge) : Fin 2 → Fin 2 → Bool :=
  fun A B => decide (0 < (ext.assess nsa (subPanel Ea A) nsb (subPanel Eb B)).1)

/-- The Taylor-Duffy correction of one sub-pair as the spec describes it:
`Sign * LL` times the Taylor-Duffy result when the sub-pair shares a
vertex, zero otherwise (`Sign` is +1 for equal polarities). -/
def tdSpecTerm (ext : ExtEnv) (nsa nsb : ℤ) (Sa Sb : RWGSurface) (Ea Eb : RWGEdge)
    (LL : ℚ) (k : Cplx) (A B : Fin 2) : CVec3 × CVec3 × CVec3 :=
  let r := ext.assess nsa (subPanel Ea A) nsb (subPanel Eb B)
  if 0 < r.1 then
    let d := GetEPPFTMatrixElements_TD ext.td r.2.1 (subQ Sa Ea A) r.2.2 (subQ Sb Eb B) r.1 k
    let Sign : ℚ := if A = B then 1 else -1
    (CVec3.scale (CQ (Sign * LL)) d.1,
     CVec3.scale (CQ (Sign * LL)) d.2.1,
     CVec3.scale (CQ (Sign * LL)) d.2.2)
  else (0, 0, 0)

/-- The summed Taylor-Duffy correction over all four sub-pairs. -/
def tdSpecSum (ext : ExtEnv) (G : RWGGeometry) (nsa nsb nea neb : ℤ)
    (k : Cplx) : CVec3 × CVec3 × CVec3 :=
  let Sa := G.Surfaces nsa
  let Sb := G.Surfaces nsb
  let Ea := Sa.Edges nea
  let Eb := Sb.Edges neb
  let LL := Ea.Length * Eb.Length
  let t := tdSpecTerm ext nsa nsb Sa Sb Ea Eb LL k
  ((t 0 0).1 + (t 0 1).1 + (t 1 0).1 + (t 1 1).1,
   (t 0 0).2.1 + (t 0 1).2.1 + (t 1 0).2.1 + (t 1 1).2.1,
   (t 0 0).2.2 + (t 0 1).2.2 + (t 1 0).2.2 + (t 1 1).2.2)


@[simp] theorem tdInit_mask (A B : Fin 2) : tdInit.mask A B = false := rfl
@[simp] theorem tdInit_have : tdInit.haveTD = false := rfl
@[simp] theorem tdInit_dbe : tdInit.dbe = 0 := rfl
@[simp] theorem tdInit_dbh : tdInit.dbh = 0 := rfl
@[simp] theorem tdInit_dxe : tdInit.dxe = 0 := rfl

theorem tdStep_mask (ext : ExtEnv) (nsa nsb : ℤ) (Sa Sb : RWGSurface)
    (Ea Eb : RWGEdge) (LL : ℚ) (k : Cplx) (st : TDState) (A B A2 B2 : Fin 2) :
    (tdStep ext nsa nsb Sa Sb Ea Eb LL k st A B).mask A2 B2 =
      (st.mask A2 B2 || (decide (A2 = A ∧ B2 = B)
        && decide (0 < (ext.assess nsa (subPanel Ea A) nsb (subPanel Eb B)).1))) := by
  by_cases hc : 0 < (ext.assess nsa (subPanel Ea A) nsb (subPanel Eb B)).1
  · by_cases heq : A2 = A ∧ B2 = B <;> simp [tdStep, hc, heq]
  · simp [tdStep, hc]

theorem tdStep_have (ext : ExtEnv) (nsa nsb : ℤ) (Sa Sb : RWGSurface)
    (Ea Eb : RWGEdge) (LL : ℚ) (k : Cplx) (st : TDState) (A B : Fin 2) :
    (tdStep ext nsa nsb Sa Sb Ea Eb LL k st A B).haveTD =
      (st.haveTD || decide (0 < (ext.assess nsa (subPanel Ea A) nsb (subPanel Eb B)).1)) := by
  by_cases hc : 0 < (ext.assess nsa (subPanel Ea A) nsb (subPanel Eb B)).1 <;>
    simp [tdStep, hc]

theorem tdStep_dbe (ext : ExtEnv) (nsa nsb : ℤ) (Sa Sb : RWGSurface)
    (Ea Eb : RWGEdge) (LL : ℚ) (k : Cplx) (st : TDState) (A B : Fin 2) :
    (tdStep ext nsa nsb Sa Sb Ea Eb LL k st A B).dbe =
      st.dbe + (tdSpecTerm ext nsa nsb Sa Sb Ea Eb LL k A B).1 := by
  by_cases hc : 0 < (ext.assess nsa (subPanel Ea A) nsb (subPanel Eb B)).1 <;>
    simp [tdStep, tdSpecTerm, hc]

theorem tdStep_dbh (ext : ExtEnv) (nsa nsb : ℤ) (Sa Sb : RWGSurface)
    (Ea Eb : RWGEdge) (LL : ℚ) (k : Cplx) (st : TDState) (A B : Fin 2) :
    (tdStep ext nsa nsb Sa Sb Ea Eb LL k st A B).dbh =
      st.dbh + (tdSpecTerm ext nsa nsb Sa Sb Ea Eb LL k A B).2.1 := by
  by_cases hc : 0 < (ext.assess nsa (subPanel Ea A) nsb (subPanel Eb B)).1 <;>
    simp [tdStep, tdSpecTerm, hc]

theorem tdStep_dxe (ext : ExtEnv) (nsa nsb : ℤ) (Sa Sb : RWGSurface)
    (Ea Eb : RWGEdge) (LL : ℚ) (k : Cplx) (st : TDState) (A B : Fin 2) :
    (tdStep ext nsa nsb Sa Sb Ea Eb LL k st A B).dxe =
      st.dxe + (tdSpecTerm ext nsa nsb Sa Sb Ea Eb LL k A B).2.2 := by
  by_cases hc : 0 < (ext.assess nsa (subPanel Ea A) nsb (subPanel Eb B)).1 <;>
    simp [tdStep, tdSpecTerm, hc]

theorem tdChain_mask (ext : ExtEnv) (nsa nsb : ℤ) (Sa Sb : RWGSurface)
    (Ea Eb : RWGEdge) (LL : ℚ) (k : Cplx) :
    (tdChain ext nsa nsb Sa Sb Ea Eb LL k).mask = tdMaskSpec ext nsa nsb Ea Eb := by
  funext A B
  simp only [tdChain, tdStep_mask, tdInit_mask, tdMaskSpec, Bool.false_or]
  fin_cases A <;> fin_cases B <;> simp

theorem tdChain_have (ext : ExtEnv) (nsa nsb : ℤ) (Sa Sb : RWGSurface)
    (Ea Eb : RWGEdge) (LL : ℚ) (k : Cplx) :
    (tdChain ext nsa nsb Sa Sb Ea Eb LL k).haveTD =
      (decide (0 < (ext.assess nsa (subPanel Ea 0) nsb (subPanel Eb 0)).1)
       || decide (0 < (ext.assess nsa (subPanel Ea 0) nsb (subPanel Eb 1)).1)
       || decide (0 < (ext.assess nsa (subPanel Ea 1) nsb (subPanel Eb 0)).1)
       || decide (0 < (ext.assess nsa (subPanel Ea 1) nsb (subPanel Eb 1)).1)) := by
  simp only [tdChain, tdStep_have, tdInit_have, Bool.false_or]

theorem tdChain_dbe (ext : ExtEnv) (nsa nsb : ℤ) (Sa Sb : RWGSurface)
    (Ea Eb : RWGEdge) (LL : ℚ) (k : Cplx) :
    (tdChain ext nsa nsb Sa Sb Ea Eb LL k).dbe =
      (tdSpecTerm ext nsa nsb Sa Sb Ea Eb LL k 0 0).1
      + (tdSpecTerm ext nsa nsb Sa Sb Ea Eb LL k 0 1).1
      + (tdSpecTerm ext nsa nsb Sa Sb Ea Eb LL k 1 0).1
      + (tdSpecTerm ext nsa nsb Sa Sb Ea Eb LL k 1 1).1 := by
  simp only [tdChain, tdStep_dbe, tdInit_dbe, CVec3.zero_add]

theorem tdChain_dbh (ext : ExtEnv) (nsa nsb : ℤ) (Sa Sb : RWGSurface)
    (Ea Eb : RWGEdge) (LL : ℚ) (k : Cplx) :
    (tdChain ext nsa nsb Sa Sb Ea Eb LL k).dbh =
      (tdSpecTerm ext nsa nsb Sa Sb Ea Eb LL k 0 0).2.1
      + (tdSpecTerm ext nsa nsb Sa Sb Ea Eb LL k 0 1).2.1
      + (tdSpecTerm ext nsa nsb Sa Sb Ea Eb LL k 1 0).2.1
      + (tdSpecTerm ext nsa nsb Sa Sb Ea Eb LL k 1 1).2.1 := by
  simp only [tdChain, tdStep_dbh, tdInit_dbh, CVec3.zero_add]

theorem tdChain_dxe (ext : ExtEnv) (nsa nsb : ℤ) (Sa Sb : RWGSurface)
    (Ea Eb : RWGEdge) (LL : ℚ) (k : Cplx) :
    (tdChain ext nsa nsb Sa Sb Ea Eb LL k).dxe =
      (tdSpecTerm ext nsa nsb Sa Sb Ea Eb LL k 0 0).2.2
      + (tdSpecTerm ext nsa nsb Sa Sb Ea Eb LL k 0 1).2.2
      + (tdSpecTerm ext nsa nsb Sa Sb Ea Eb LL k 1 0).2.2
      + (tdSpecTerm ext nsa nsb Sa Sb Ea Eb LL k 1 1).2.2 := by
  simp only [tdChain, tdStep_dxe, tdInit_dxe, CVec3.zero_add]

/-- C5: on a same-surface pair with the cubature-only override off,
`GetEPPFTMatrixElements` produces the cubature outputs computed with the
assessed omission mask, plus — added into `divbe`, `divbh`, `bxe` only —
the sum over all common-vertex sub-pairs of `Sign * LL` times the
Taylor-Duffy result, where `Sign` is +1 exactly when source and field
panel have the same polarity. -/
theorem claim_C5_taylor_duffy_addition (ext : ExtEnv) (G : RWGGeometry)
    (nsa nsb nea neb : ℤ) (k : Cplx) (Order : ℕ)
    (hs : nsa = nsb) (hf : ext.forceCubature = false) :
    GetEPPFTMatrixElements ext G nsa nsb nea neb k Order =
      (let cub := GetEPPFTMatrixElements_Cubature ext G nsa nsb nea neb k
          (tdMaskSpec ext nsa nsb ((G.Surfaces nsa).Edges nea)
            ((G.Surfaces nsb).Edges neb)) Order
       let s := tdSpecSum ext G nsa nsb nea neb k
       { cub with divbe := cub.divbe + s.1
                  divbh := cub.divbh + s.2.1
                  bxe := cub.bxe + s.2.2 }) := by
  have hcond : nsa = nsb ∧ ext.forceCubature = false := ⟨hs, hf⟩
  simp only [GetEPPFTMatrixElements]
  rw [if_pos hcond, tdChain_mask, tdChain_have, tdChain_dbe, tdChain_dbh, tdChain_dxe]
  by_cases hTD :
      (decide (0 < (ext.assess nsa (subPanel ((G.Surfaces nsa).Edges nea) 0) nsb
          (subPanel ((G.Surfaces nsb).Edges neb) 0)).1)
       || decide (0 < (ext.assess nsa (subPanel ((G.Surfaces nsa).Edges nea) 0) nsb
          (subPanel ((G.Surfaces nsb).Edges neb) 1)).1)
       || decide (0 < (ext.assess nsa (subPanel ((G.Surfaces nsa).Edges nea) 1) nsb
          (subPanel ((G.Surfaces nsb).Edges neb) 0)).1)
       || decide (0 < (ext.assess nsa (subPanel ((G.Surfaces nsa).Edges nea) 1) nsb
          (subPanel ((G.Surfaces nsb).Edges neb) 1)).1)) = true
  · rw [if_pos hTD]
    rfl
  · rw [if_neg hTD]
    simp only [Bool.or_eq_true, decide_eq_true_eq, not_or] at hTD
    obtain ⟨⟨⟨h00, h01⟩, h10⟩, h11⟩ := hTD
    simp [tdSpecSum, tdSpecTerm, h00, h01, h10, h11]

/-- A concrete external environment: empty cubature rule, zero reduced
fields, an assessor that reports one common vertex exactly for the
(0, 0) panel pair, a constant Taylor-Duffy primitive, vacuum materials,
identity square root, override off. -/
def extW : ExtEnv :=
  { tcr := fun _ => []
    grf := fun _ _ _ _ _ => (0, 0)
    assess := fun _ npa _ npb =>
      if npa = 0 ∧ npb = 0 then (1, fun _ => ⟨0, 0, 0⟩, fun _ => ⟨0, 0, 0⟩)
      else (0, fun _ => ⟨0, 0, 0⟩, fun _ => ⟨0, 0, 0⟩)
    td := fun _ _ _ _ _ _ _ _ => ⟨1, 0⟩
    getEpsMu := fun _ _ => (⟨1, 0⟩, ⟨1, 0⟩)
    csqrt := fun z => z
    forceCubature := false }

/-- The two-triangle mesh wrapped as a one-surface geometry. -/
def geomO : RWGGeometry :=
  { NumSurfaces := 1, Surfaces := fun _ => meshW, BFIndexOffset := fun _ => 0 }

/-- Witness for C5 at a concrete same-surface pair with the override
off: the Taylor-Duffy decomposition holds for the (0, 0) edge pair. -/
theorem claim_C5_witness :
    GetEPPFTMatrixElements extW geomO 0 0 0 0 II 4 =
      (let cub := GetEPPFTMatrixElements_Cubature extW geomO 0 0 0 0 II
          (tdMaskSpec extW 0 0 ((geomO.Surfaces 0).Edges 0)
            ((geomO.Surfaces 0).Edges 0)) 4
       let s := tdSpecSum extW geomO 0 0 0 0 II
       { cub with divbe := cub.divbe + s.1
                  divbh := cub.divbh + s.2.1
                  bxe := cub.bxe + s.2.2 }) :=
  claim_C5_taylor_duffy_addition extW geomO 0 0 0 0 II 4 rfl rfl

/-!  ## OPFT reduction engine (OPFT.cc lines 266-450) -/

/-- Running accumulator of a PFT reduction loop: the seven scalar totals
(power, force x/y/z, torque x/y/z) and the per-edge breakdown arrays. -/
structure PFTAcc where
  tot : Fin 7 → ℚ
  byEdge : Fin 7 → ℤ → ℚ

/-- Result of `GetOPFT`: the 8 output slots, the final contents of the
(caller-owned) per-edge arrays, and the number of warnings emitted. -/
structure OPFTOut where
  PFT : Fin 8 → ℚ
  ByEdge : Fin 7 → ℤ → ℚ
  warns : ℕ

/-- Accumulate the seven per-pair contributions into the totals and —
for each supplied per-edge array — into slot `nea` of that array
(OPFT.cc lines 390-410, EPPFT.cc lines 607-629). -/
def accAdd (acc : PFTAcc) (byEdgeMask : Option (Fin 7 → Bool)) (nea : ℤ)
    (d : Fin 7 → ℚ) : PFTAcc :=
  { tot := fun q => acc.tot q + d q
    byEdge :=
      match byEdgeMask with
      | none => acc.byEdge
      | some mask => fun q ne =>
          acc.byEdge q ne + (if mask q = true ∧ ne = nea then d q else 0) }

/-- The four current products (OPFT.cc lines 321-347): `none` models the
null-pointer dereference of the correlation matrix when neither current
input is supplied. -/
def opftProducts (IsPEC : Bool) (KNVector : Option (ℤ → Cplx))
    (RytovMatrix : Option (ℤ → ℤ → Cplx)) (Offset nea neb : ℤ) :
    Option (Cplx × Cplx × Cplx × Cplx) :=
  match KNVector with
  | some kn =>
    if IsPEC then
      some (Cplx.conj (kn (Offset + nea)) * kn (Offset + neb), 0, 0, 0)
    else
      let kAlpha := kn (Offset + 2 * nea + 0)
      let nAlpha := -(CQ ZVAC) * kn (Offset + 2 * nea + 1)
      let kBeta := kn (Offset + 2 * neb + 0)
      let nBeta := -(CQ ZVAC) * kn (Offset + 2 * neb + 1)
      some (Cplx.conj kAlpha * kBeta, Cplx.conj kAlpha * nBeta,
            Cplx.conj nAlpha * kBeta, Cplx.conj nAlpha * nBeta)
  | none =>
    match RytovMatrix with
    | some m =>
      some (m (Offset + 2 * neb + 0) (Offset + 2 * nea + 0),
            m (Offset + 2 * neb + 1) (Offset + 2 * nea + 0),
            m (Offset + 2 * neb + 0) (Offset + 2 * nea + 1),
            m (Offset + 2 * neb + 1) (Offset + 2 * nea + 1))
    | none => none

/-- The per-pair contributions `dPAbs, dF, dTau` of OPFT.cc lines
352-385, as a 7-slot vector. -/
def opftDeltas (Omega ZZ k2 : Cplx) (P : Cplx × Cplx × Cplx × Cplx)
    (Ov : Fin 20 → ℚ) (q : Fin 7) : ℚ :=
  let KK := P.1
  let KN := P.2.1
  let NK := P.2.2.1
  let NN := P.2.2.2
  let f : Fin 20 → Fin 20 → Fin 20 → ℚ := fun b n t =>
    (1/4) * TENTHIRDS *
      (-(KK * ZZ + NN / ZZ) * (CQ (Ov b) - CQ (Ov n) / k2)
       + (NK - KN) * CQ 2 * CQ (Ov t) / (II * Omega)).re
  if q = 0 then (1/4) * ((KN - NK) * CQ (Ov 1)).re
  else if q = 1 then f 2 3 4
  else if q = 2 then f 5 6 7
  else if q = 3 then f 8 9 10
  else if q = 4 then f 11 12 13
  else if q = 5 then f 14 15 16
  else f 17 18 19

/-- One iteration of the OPFT pair loop. -/
def opftStep (S : RWGSurface) (KNVector : Option (ℤ → Cplx))
    (RytovMatrix : Option (ℤ → ℤ → Cplx)) (Offset : ℤ) (Omega ZZ k2 : Cplx)
    (byEdgeMask : Option (Fin 7 → Bool)) (acc : PFTAcc) (p : ℤ × ℤ) :
    Option PFTAcc :=
  let Ov := GetOverlaps S p.1 p.2
  (opftProducts S.IsPEC KNVector RytovMatrix Offset p.1 p.2).map fun P =>
    accAdd acc byEdgeMask p.1 (opftDeltas Omega ZZ k2 P Ov)

/-- The iteration space of the OPFT loop: each edge paired with its 3 or
5 overlap-adjacent edges (OPFT.cc lines 303-314). -/
def opftPairs (S : RWGSurface) : List (ℤ × ℤ) :=
  (List.range S.NumEdges).flatMap fun nea =>
    (GetOverlappingEdgeIndices S (nea : ℤ)).map fun neb => ((nea : ℤ), neb)

/-- One iteration of the extinction loop (OPFT.cc lines 434-446),
carrying the running `(nbf, Extinction)` state. -/
def extStep (kn rhs : ℤ → Cplx) (IsPEC : Bool) (Offset : ℤ)
    (st : ℤ × ℚ) (ne : ℕ) : ℤ × ℚ :=
  let _ := ne
  let kAlpha := kn (Offset + st.1)
  let vEAlpha := -(CQ ZVAC) * rhs (Offset + st.1)
  let nbf1 := st.1 + 1
  let E1 := st.2 + (1/2) * (Cplx.conj kAlpha * vEAlpha).re
  if IsPEC then (nbf1, E1)
  else
    let nAlpha := -(CQ ZVAC) * kn (Offset + nbf1)
    let vHAlpha := -(rhs (Offset + nbf1))
    (nbf1 + 1, E1 + (1/2) * (Cplx.conj nAlpha * vHAlpha).re)

/-- The extinction loop of `GetOPFT` run over all edges. -/
def extinctionFold (kn rhs : ℤ → Cplx) (IsPEC : Bool) (Offset : ℤ) (NE : ℕ) : ℚ :=
  ((List.range NE).foldl (extStep kn rhs IsPEC Offset) (0, 0)).2

/-- The extinction as a closed-form sum over basis functions: one
electric term per edge, plus one magnetic term per edge on non-PEC
surfaces, at the interleaved vector offsets the code walks. -/
def OPFTExtinction (kn rhs : ℤ → Cplx) (IsPEC : Bool) (Offset : ℤ) (NE : ℕ) : ℚ :=
  let c : ℤ := if IsPEC then 1 else 2
  ∑ ne in Finset.range NE,
    ((1/2) * (Cplx.conj (kn (Offset + c * ne)) * (-(CQ ZVAC) * rhs (Offset + c * ne))).re
     + if IsPEC then 0 else
        (1/2) * (Cplx.conj (-(CQ ZVAC) * kn (Offset + c * ne + 1)) * (-(rhs (Offset + c * ne + 1)))).re)

/-- `GetOPFT` (OPFT.cc lines 266-450). -/
def GetOPFT (ext : ExtEnv) (G : RWGGeometry) (SurfaceIndex : ℤ) (Omega : Cplx)
    (KNVector : Option (ℤ → Cplx)) (RHS : Option (ℤ → Cplx))
    (RytovMatrix : Option (ℤ → ℤ → Cplx))
    (byEdgeMask : Option (Fin 7 → Bool)) (byEdgeInit : Fin 7 → ℤ → ℚ) :
    Option OPFTOut :=
  if SurfaceIndex < 0 ∨ G.NumSurfaces ≤ SurfaceIndex then
    some { PFT := fun _ => 0, ByEdge := byEdgeInit, warns := 1 }
  else
    let S := G.Surfaces SurfaceIndex
    let Offset := G.BFIndexOffset SurfaceIndex
    let NE := S.NumEdges
    let EM := ext.getEpsMu (S.RegionIndices 0) Omega
    let k2 := (Omega * Omega) * (EM.1 * EM.2)
    let ZZ := CQ ZVAC * ext.csqrt (EM.2 / EM.1)
    let be0 : Fin 7 → ℤ → ℚ :=
      match byEdgeMask with
      | none => byEdgeInit
      | some mask => fun q ne =>
          if mask q = true ∧ 0 ≤ ne ∧ ne < (NE : ℤ) then 0 else byEdgeInit q ne
    ((opftPairs S).foldlM (opftStep S KNVector RytovMatrix Offset Omega ZZ k2 byEdgeMask)
        { tot := fun _ => 0, byEdge := be0 }).map fun acc =>
      let ext1 : ℚ :=
        match KNVector, RHS with
        | some kn, some rhs => extinctionFold kn rhs S.IsPEC Offset NE - acc.tot 0
        | _, _ => 0
      { PFT := fun i =>
          if i = 0 then acc.tot 0
          else if i = 1 then ext1
          else if i = 2 then acc.tot 1
          else if i = 3 then acc.tot 2
          else if i = 4 then acc.tot 3
          else if i = 5 then acc.tot 4
          else if i = 6 then acc.tot 5
          else acc.tot 6
        ByEdge := acc.byEdge
        warns := 0 }

/-- The PFT slot holding the global total that per-edge array `q`
decomposes: slot 0 for power, slots 2-7 for force and torque (slot 1 is
the extinction-derived scattered power, which has no per-edge array). -/
def opftSlot (q : Fin 7) : Fin 8 :=
  if q = 0 then 0 else ⟨q.val + 1, by omega⟩

/-- Invariant preservation through an `Option`-valued left fold: any
property holding at the start and preserved by every succeeding step
holds at a successful end state. -/
theorem foldlM_option_inv {α σ : Type} (step : σ → α → Option σ) (P : σ → Prop) :
    ∀ (l : List α) (s0 sF : σ), l.foldlM step s0 = some sF → P s0 →
      (∀ s a s2, a ∈ l → P s → step s a = some s2 → P s2) → P sF := by
  intro l
  induction l with
  | nil =>
    intro s0 sF h hP _
    simp only [List.foldlM_nil] at h
    cases h
    exact hP
  | cons a t ih =>
    intro s0 sF h hP hstep
    rw [List.foldlM_cons] at h
    cases hs : step s0 a with
    | none => rw [hs] at h; exact Option.noConfusion h
    | some s1 =>
      rw [hs] at h
      exact ih s1 sF h (hstep s0 a s1 (by simp) hP hs)
        (fun s b s2 hb => hstep s b s2 (by simp [hb]))

theorem opftPairs_mem (S : RWGSurface) (p : ℤ × ℤ) (hp : p ∈ opftPairs S) :
    ∃ n : ℕ, n < S.NumEdges ∧ p.1 = (n : ℤ) := by
  unfold opftPairs at hp
  simp only [List.mem_flatMap, List.mem_map, List.mem_range] at hp
  obtain ⟨n, hn, neb, _, hpe⟩ := hp
  exact ⟨n, hn, by rw [← hpe]⟩

/-- Adding a pair contribution at a source edge inside the range keeps
the per-edge array summing to the matching total. -/
theorem accAdd_sum (acc : PFTAcc) (mask : Fin 7 → Bool) (q : Fin 7)
    (hq : mask q = true) (n NE : ℕ) (hn : n < NE) (d : Fin 7 → ℚ)
    (hP : (∑ ne in Finset.range NE, acc.byEdge q (ne : ℤ)) = acc.tot q) :
    (∑ ne in Finset.range NE, (accAdd acc (some mask) (n : ℤ) d).byEdge q (ne : ℤ))
      = (accAdd acc (some mask) (n : ℤ) d).tot q := by
  simp only [accAdd, hq, true_and, Int.natCast_inj]
  rw [Finset.sum_add_distrib, hP]
  congr 1
  rw [Finset.sum_ite_eq' (Finset.range NE) n fun _ => d q]
  simp [hn]

/-- OPFT half of the reduction-consistency claim: on a valid surface,
each supplied per-edge array sums to its global PFT component. -/
theorem opft_byedge_sum (ext : ExtEnv) (G : RWGGeometry) (SI : ℤ) (Omega : Cplx)
    (KN : Option (ℤ → Cplx)) (RHS : Option (ℤ → Cplx))
    (Ryt : Option (ℤ → ℤ → Cplx)) (mask : Fin 7 → Bool)
    (byEdgeInit : Fin 7 → ℤ → ℚ) (out : OPFTOut) (q : Fin 7)
    (hv : ¬(SI < 0 ∨ G.NumSurfaces ≤ SI))
    (h : GetOPFT ext G SI Omega KN RHS Ryt (some mask) byEdgeInit = some out)
    (hq : mask q = true) :
    (∑ ne in Finset.range (G.Surfaces SI).NumEdges, out.ByEdge q (ne : ℤ))
      = out.PFT (opftSlot q) := by
  unfold GetOPFT at h
  rw [if_neg hv] at h
  simp only [Option.map_eq_some'] at h
  obtain ⟨acc, hfold, hout⟩ := h
  have hinv := foldlM_option_inv _
    (fun a => (∑ ne in Finset.range (G.Surfaces SI).NumEdges, a.byEdge q (ne : ℤ)) = a.tot q)
    _ _ _ hfold ?_ ?_
  · rw [← hout]
    fin_cases q <;> simpa [opftSlot] using hinv
  · apply Finset.sum_eq_zero
    intro ne hne
    have h1 : (ne : ℤ) < ((G.Surfaces SI).NumEdges : ℤ) := by
      exact_mod_cast Finset.mem_range.mp hne
    simp [hq, h1, Int.natCast_nonneg]
  · intro s p s2 hp hP hstep
    simp only [opftStep, Option.map_eq_some'] at hstep
    obtain ⟨P2, _, hs2⟩ := hstep
    obtain ⟨n, hn, hp1⟩ := opftPairs_mem _ p hp
    rw [← hs2, hp1]
    exact accAdd_sum s mask q hq n _ hn _ hP

/-- The fold with its interleaved index counter computes the closed-form
extinction sum (and the counter ends at the number of unknowns). -/
theorem extinction_fold_eq (kn rhs : ℤ → Cplx) (pec : Bool) (Offset : ℤ) (NE : ℕ) :
    extinctionFold kn rhs pec Offset NE = OPFTExtinction kn rhs pec Offset NE := by
  suffices hsuf : ∀ m : ℕ, (List.range m).foldl (extStep kn rhs pec Offset) (0, 0) =
      ((if pec then (1 : ℤ) else 2) * (m : ℤ), OPFTExtinction kn rhs pec Offset m) by
    unfold extinctionFold
    rw [hsuf NE]
  intro m
  induction m with
  | zero => simp [OPFTExtinction]
  | succ n ih =>
    rw [List.range_succ, List.foldl_append, ih]
    simp only [List.foldl_cons, List.foldl_nil]
    unfold extStep OPFTExtinction
    cases pec <;>
      (simp only [Bool.false_eq_true, if_false, if_true, Prod.mk.injEq]
       constructor
       · push_cast
         ring
       · simp only [Finset.sum_range_succ]
         simp [add_assoc, mul_comm]
       )

/-- C8: on a valid surface, `GetOPFT` sets output slot 1 to the
extinction sum minus the absorbed power `PFT[0]` when both a current
vector and an excitation vector are supplied, and to exactly 0 in every
other case. -/
theorem claim_C8_extinction_slot (ext : ExtEnv) (G : RWGGeometry) (SI : ℤ)
    (Omega : Cplx) (KN : Option (ℤ → Cplx)) (RHS : Option (ℤ → Cplx))
    (Ryt : Option (ℤ → ℤ → Cplx)) (byEdgeMask : Option (Fin 7 → Bool))
    (byEdgeInit : Fin 7 → ℤ → ℚ) (out : OPFTOut)
    (hv : ¬(SI < 0 ∨ G.NumSurfaces ≤ SI))
    (h : GetOPFT ext G SI Omega KN RHS Ryt byEdgeMask byEdgeInit = some out) :
    (∀ kn rhs, KN = some kn → RHS = some rhs →
      out.PFT 1 = OPFTExtinction kn rhs (G.Surfaces SI).IsPEC (G.BFIndexOffset SI)
          (G.Surfaces SI).NumEdges - out.PFT 0) ∧
    ((KN = none ∨ RHS = none) → out.PFT 1 = 0) := by
  unfold GetOPFT at h
  rw [if_neg hv] at h
  simp only [Option.map_eq_some'] at h
  obtain ⟨acc, hfold, hout⟩ := h
  constructor
  · intro kn rhs hkn hrhs
    subst hkn; subst hrhs
    rw [← hout]
    simp [extinction_fold_eq]
  · intro hnone
    rw [← hout]
    rcases hnone with hkn | hrhs
    · subst hkn; simp
    · subst hrhs; cases KN <;> simp

/-- C10: on a valid perfectly-conducting surface with a current vector
supplied, the absorbed-power output `PFT[0]` of `GetOPFT` is exactly
zero: the PEC branch zeroes the KN and NK couplings, so every pair power
contribution `0.25 * Re[(KN - NK) * cross-overlap]` vanishes. -/
theorem claim_C10_pec_absorbed_power_zero (ext : ExtEnv) (G : RWGGeometry)
    (SI : ℤ) (Omega : Cplx) (kn : ℤ → Cplx) (RHS : Option (ℤ → Cplx))
    (Ryt : Option (ℤ → ℤ → Cplx)) (byEdgeMask : Option (Fin 7 → Bool))
    (byEdgeInit : Fin 7 → ℤ → ℚ) (out : OPFTOut)
    (hv : ¬(SI < 0 ∨ G.NumSurfaces ≤ SI))
    (hPEC : (G.Surfaces SI).IsPEC = true)
    (h : GetOPFT ext G SI Omega (some kn) RHS Ryt byEdgeMask byEdgeInit = some out) :
    out.PFT 0 = 0 := by
  unfold GetOPFT at h
  rw [if_neg hv] at h
  simp only [Option.map_eq_some'] at h
  obtain ⟨acc, hfold, hout⟩ := h
  have hinv := foldlM_option_inv _ (fun a => a.tot 0 = 0) _ _ _ hfold rfl ?_
  · rw [← hout]
    simpa using hinv
  · intro s p s2 hp hP hstep
    simp only [opftStep, opftProducts, hPEC, if_true, Option.map_eq_some',
      Option.some.injEq] at hstep
    obtain ⟨P2, hprod, hs2⟩ := hstep
    rw [← hs2, ← hprod]
    simp [accAdd, opftDeltas, hP]

/-- C6 (amended): `GetOPFT` called with an out-of-range surface index
emits one warning and returns a zero-filled PFT result, leaving the
caller's per-edge arrays untouched.  `GetEPPFTTrace`, by contrast,
performs no index validation at all — see the counterexample. -/
theorem claim_C6_invalid_surface_index (ext : ExtEnv) (G : RWGGeometry) (SI : ℤ)
    (Omega : Cplx) (KN : Option (ℤ → Cplx)) (RHS : Option (ℤ → Cplx))
    (Ryt : Option (ℤ → ℤ → Cplx)) (byEdgeMask : Option (Fin 7 → Bool))
    (byEdgeInit : Fin 7 → ℤ → ℚ)
    (hv : SI < 0 ∨ G.NumSurfaces ≤ SI) :
    GetOPFT ext G SI Omega KN RHS Ryt byEdgeMask byEdgeInit =
      some { PFT := fun _ => 0, ByEdge := byEdgeInit, warns := 1 } := by
  unfold GetOPFT
  rw [if_pos hv]

/-- OPFT half of the missing-current behaviour: with neither current
input supplied, the first processed pair dereferences the null
correlation matrix, so on a valid surface with at least one edge the
call crashes (no result). -/
theorem opft_missing_current_fails (ext : ExtEnv) (G : RWGGeometry) (SI : ℤ)
    (Omega : Cplx) (RHS : Option (ℤ → Cplx)) (byEdgeMask : Option (Fin 7 → Bool))
    (byEdgeInit : Fin 7 → ℤ → ℚ)
    (hv : ¬(SI < 0 ∨ G.NumSurfaces ≤ SI))
    (hNE : 1 ≤ (G.Surfaces SI).NumEdges) :
    GetOPFT ext G SI Omega none RHS none byEdgeMask byEdgeInit = none := by
  unfold GetOPFT
  rw [if_neg hv]
  have hcons : ∃ t0, GetOverlappingEdgeIndices (G.Surfaces SI) ((0 : ℕ) : ℤ)
      = ((0 : ℕ) : ℤ) :: t0 := by
    simp only [GetOverlappingEdgeIndices]
    split_ifs <;> exact ⟨_, rfl⟩
  have hpair : ∃ t, opftPairs (G.Surfaces SI) = ((0 : ℤ), (0 : ℤ)) :: t := by
    unfold opftPairs
    obtain ⟨m, hm⟩ : ∃ m, (G.Surfaces SI).NumEdges = m + 1 :=
      ⟨(G.Surfaces SI).NumEdges - 1, by omega⟩
    obtain ⟨t0, ht0⟩ := hcons
    rw [hm, List.range_succ_eq_map, List.flatMap_cons, ht0]
    exact ⟨_, rfl⟩
  obtain ⟨t, ht⟩ := hpair
  simp only [ht, List.foldlM_cons]
  simp [opftStep, opftProducts]

/-!  ## EPPFT trace engine (EPPFT.cc lines 410-644) -/

/-- Result of `GetEPPFTTrace`: the 7-component PFT vector, the caller's
per-edge arrays, and the number of warnings emitted. -/
structure TraceOut where
  PFT : Fin 7 → ℚ
  ByEdge : Fin 7 → ℤ → ℚ
  warns : ℕ

/-- The frequency- and material-dependent prefactors and flags computed
once per `GetEPPFTTrace` call (EPPFT.cc lines 434-481). -/
structure TracePre where
  Sign : ℚ
  Interior : Bool
  PEE : Cplx
  PEM : Cplx
  PME : Cplx
  PMM : Cplx
  FEE1 : Cplx
  FEE2 : Cplx
  FEM1 : Cplx
  FEM2 : Cplx
  FME1 : Cplx
  FME2 : Cplx
  FMM1 : Cplx
  FMM2 : Cplx
  FEE3 : Cplx
  FMM3 : Cplx
  FEM3 : Cplx
  FME3 : Cplx

/-- The four current products of the trace loop (EPPFT.cc lines
527-545): `none` models the null `SigmaMatrix` dereference when neither
current input is supplied. -/
def traceProducts (KNVector : Option (ℤ → Cplx))
    (SigmaMatrix : Option (ℤ → ℤ → Cplx)) (Offset nea neb : ℤ) :
    Option (Cplx × Cplx × Cplx × Cplx) :=
  match KNVector with
  | some kn =>
    let kAlpha := kn (Offset + 2 * nea + 0)
    let nAlpha := -(CQ ZVAC) * kn (Offset + 2 * nea + 1)
    let kBeta := kn (Offset + 2 * neb + 0)
    let nBeta := -(CQ ZVAC) * kn (Offset + 2 * neb + 1)
    some (Cplx.conj kAlpha * kBeta, Cplx.conj kAlpha * nBeta,
          Cplx.conj nAlpha * kBeta, Cplx.conj nAlpha * nBeta)
  | none =>
    match SigmaMatrix with
    | some m =>
      some (m (Offset + 2 * neb + 0) (Offset + 2 * nea + 0),
            m (Offset + 2 * neb + 1) (Offset + 2 * nea + 0),
            m (Offset + 2 * neb + 0) (Offset + 2 * nea + 1),
            m (Offset + 2 * neb + 1) (Offset + 2 * nea + 1))
    | none => none

/-- The per-pair contributions `dPAbs, dF, dTau` of the trace loop
(EPPFT.cc lines 550-599), including the interior-side overlap
subtraction. -/
def traceDeltas (pre : TracePre) (me : CubOut) (Ov : Fin 20 → ℚ)
    (P : Cplx × Cplx × Cplx × Cplx) (q : Fin 7) : ℚ :=
  let KK := P.1
  let KN := P.2.1
  let NK := P.2.2.1
  let NN := P.2.2.2
  let dPAbs := pre.Sign *
    (KK * pre.PEE * me.be + KN * pre.PEM * me.bh
     + NK * pre.PME * me.bh + NN * pre.PMM * me.be).re
  let dF : Fin 3 → ℚ := fun i =>
    pre.Sign *
      (KK * (pre.FEE1 * me.divbe.get i + pre.FEE2 * me.bxh.get i)
       + KN * (pre.FEM1 * me.divbh.get i + pre.FEM2 * me.bxe.get i)
       + NK * (pre.FME1 * me.divbh.get i + pre.FME2 * me.bxe.get i)
       + NN * (pre.FMM1 * me.divbe.get i + pre.FMM2 * me.bxh.get i)).re
    - (if pre.Interior then
        ((pre.FEE3 * KK + pre.FMM3 * NN)
            * CQ (if i = 0 then Ov 3 else if i = 1 then Ov 6 else Ov 9)
         + (pre.FEM3 * KN + pre.FME3 * NK)
            * CQ (if i = 0 then Ov 4 else if i = 1 then Ov 7 else Ov 10)).re
       else 0)
  let dTau : Fin 3 → ℚ := fun i =>
    pre.Sign *
      (KK * (pre.FEE1 * me.divbrxe.get i + pre.FEE2 * me.rxbxh.get i)
       + KN * (pre.FEM1 * me.divbrxh.get i + pre.FEM2 * me.rxbxe.get i)
       + NK * (pre.FME1 * me.divbrxh.get i + pre.FME2 * me.rxbxe.get i)
       + NN * (pre.FMM1 * me.divbrxe.get i + pre.FMM2 * me.rxbxh.get i)).re
    - (if pre.Interior then
        ((pre.FEE3 * KK + pre.FMM3 * NN)
            * CQ (if i = 0 then Ov 12 else if i = 1 then Ov 15 else Ov 18)
         + (pre.FEM3 * KN + pre.FME3 * NK)
            * CQ (if i = 0 then Ov 13 else if i = 1 then Ov 16 else Ov 19)).re
       else 0)
  if q = 0 then dPAbs
  else if q = 1 then dF 0
  else if q = 2 then dF 1
  else if q = 3 then dF 2
  else if q = 4 then dTau 0
  else if q = 5 then dTau 1
  else dTau 2

/-- One iteration of the `neab` pair loop of `GetEPPFTTrace` (EPPFT.cc
lines 505-629). -/
def traceStep (ext : ExtEnv) (G : RWGGeometry) (SI : ℤ) (S : RWGSurface)
    (KNVector : Option (ℤ → Cplx)) (SigmaMatrix : Option (ℤ → ℤ → Cplx))
    (Offset : ℤ) (pre : TracePre) (NE : ℕ) (byEdgeMask : Option (Fin 7 → Bool))
    (k : Cplx) (acc : PFTAcc) (neab : ℕ) : Option PFTAcc :=
  let nea : ℕ := neab / NE
  let neb : ℕ := neab % NE
  let me := GetEPPFTMatrixElements ext G SI SI (nea : ℤ) (neb : ℤ) k 9
  let Ov := GetOverlaps S (nea : ℤ) (neb : ℤ)
  (traceProducts KNVector SigmaMatrix Offset (nea : ℤ) (neb : ℤ)).map fun P =>
    accAdd acc byEdgeMask (nea : ℤ) (traceDeltas pre me Ov P)

/-- `RWGGeometry::GetEPPFTTrace` (EPPFT.cc lines 410-644).  Note: the
function reads the surface array without any index validation. -/
def GetEPPFTTrace (ext : ExtEnv) (G : RWGGeometry) (SurfaceIndex : ℤ)
    (Omega : Cplx) (KNVector : Option (ℤ → Cplx))
    (SigmaMatrix : Option (ℤ → ℤ → Cplx))
    (byEdgeMask : Option (Fin 7 → Bool)) (byEdgeInit : Fin 7 → ℤ → ℚ)
    (Exterior : Bool) : Option TraceOut :=
  let S := G.Surfaces SurfaceIndex
  let Offset := G.BFIndexOffset SurfaceIndex
  let NE := S.NumEdges
  let nrOut := S.RegionIndices 0
  let nrIn := S.RegionIndices 1
  if S.IsPEC = true ∨ nrIn = -1 then
    some { PFT := fun _ => 0, ByEdge := byEdgeInit, warns := 1 }
  else
    let EMOut := ext.getEpsMu nrOut Omega
    let EMIn := ext.getEpsMu nrIn Omega
    let EpsOut := EMOut.1
    let MuOut := EMOut.2
    let EpsIn := EMIn.1
    let MuIn := EMIn.2
    let Sign : ℚ := if Exterior then 1 else -1
    let Interior := !Exterior
    let k := if Exterior then Omega * ext.csqrt (EpsOut * MuOut)
             else Omega * ext.csqrt (EpsIn * MuIn)
    let ZRel := if Exterior then ext.csqrt (MuOut / EpsOut)
                else ext.csqrt (MuIn / EpsIn)
    let GammaE := if Exterior then 0
                  else (CQ 1 / EpsIn - CQ 1 / EpsOut) * CQ ZVAC
    let GammaM := if Exterior then 0
                  else (CQ 1 / MuIn - CQ 1 / MuOut) / CQ ZVAC
    let KZ := k * CQ ZVAC * ZRel
    let KOZ := k / (CQ ZVAC * ZRel)
    let Omega2 := Omega * Omega
    let pre : TracePre :=
      { Sign := Sign
        Interior := Interior
        PEE := CQ (1/2) * II * KZ
        PEM := -(CQ (1/2))
        PME := CQ (1/2)
        PMM := CQ (1/2) * II * KOZ
        FEE1 := -(CQ (1/2)) * CQ TENTHIRDS * KZ / Omega
        FEE2 := CQ (1/2) * CQ TENTHIRDS * CQ ZVAC
        FEM1 := CQ (1/2) * CQ TENTHIRDS / (II * Omega)
        FEM2 := CQ (1/2) * CQ TENTHIRDS * II * KOZ * CQ ZVAC
        FME1 := -(CQ (1/2)) * CQ TENTHIRDS / (II * Omega)
        FME2 := -(CQ (1/2)) * CQ TENTHIRDS * II * KZ / CQ ZVAC
        FMM1 := -(CQ (1/2)) * CQ TENTHIRDS * KOZ / Omega
        FMM2 := CQ (1/2) * CQ TENTHIRDS / CQ ZVAC
        FEE3 := CQ (1/4) * CQ TENTHIRDS * GammaE / Omega2
        FMM3 := CQ (1/4) * CQ TENTHIRDS * GammaM / Omega2
        FEM3 := -(CQ (1/4)) * CQ TENTHIRDS * GammaM * CQ ZVAC / (II * Omega)
        FME3 := CQ (1/4) * CQ TENTHIRDS * GammaE / (II * Omega * CQ ZVAC) }
    let be0 : Fin 7 → ℤ → ℚ :=
      match byEdgeMask with
      | none => byEdgeInit
      | some mask => fun q ne =>
          if mask q = true ∧ 0 ≤ ne ∧ ne < (NE : ℤ) then 0 else byEdgeInit q ne
    ((List.range (NE * NE)).foldlM
        (traceStep ext G SurfaceIndex S KNVector SigmaMatrix Offset pre NE byEdgeMask k)
        { tot := fun _ => 0, byEdge := be0 }).map fun acc =>
      { PFT := fun q => acc.tot q, ByEdge := acc.byEdge, warns := 0 }

/-- Trace half of the reduction-consistency claim: past the PEC check,
each supplied per-edge array sums to its global PFT component. -/
theorem trace_byedge_sum (ext : ExtEnv) (G : RWGGeometry) (SI : ℤ)
    (Omega : Cplx) (KN : Option (ℤ → Cplx)) (Sigma : Option (ℤ → ℤ → Cplx))
    (mask : Fin 7 → Bool) (byEdgeInit : Fin 7 → ℤ → ℚ) (out : TraceOut)
    (q : Fin 7) (Exterior : Bool)
    (hPEC : ¬((G.Surfaces SI).IsPEC = true ∨ (G.Surfaces SI).RegionIndices 1 = -1))
    (h : GetEPPFTTrace ext G SI Omega KN Sigma (some mask) byEdgeInit Exterior = some out)
    (hq : mask q = true) :
    (∑ ne in Finset.range (G.Surfaces SI).NumEdges, out.ByEdge q (ne : ℤ))
      = out.PFT q := by
  simp only [GetEPPFTTrace] at h
  rw [if_neg hPEC] at h
  simp only [Option.map_eq_some'] at h
  obtain ⟨acc, hfold, hout⟩ := h
  have hinv := foldlM_option_inv _
    (fun a => (∑ ne in Finset.range (G.Surfaces SI).NumEdges, a.byEdge q (ne : ℤ)) = a.tot q)
    _ _ _ hfold ?_ ?_
  · rw [← hout]
    simpa using hinv
  · apply Finset.sum_eq_zero
    intro ne hne
    have h1 : (ne : ℤ) < ((G.Surfaces SI).NumEdges : ℤ) := by
      exact_mod_cast Finset.mem_range.mp hne
    simp [hq, h1, Int.natCast_nonneg]
  · intro s a s2 ha hP hstep
    simp only [traceStep, Option.map_eq_some'] at hstep
    obtain ⟨P2, _, hs2⟩ := hstep
    have hlt : a / (G.Surfaces SI).NumEdges < (G.Surfaces SI).NumEdges := by
      have hmem := List.mem_range.mp ha
      by_cases hz : (G.Surfaces SI).NumEdges = 0
      · rw [hz] at hmem; simp at hmem
      · exact (Nat.div_lt_iff_lt_mul (Nat.pos_of_ne_zero hz)).mpr hmem
    rw [← hs2]
    exact accAdd_sum s mask q hq _ _ hlt _ hP

/-- C9: calling `GetEPPFTTrace` on a perfectly conducting surface or one
with no interior region returns the all-zero 7-component PFT vector and
emits exactly one warning (the per-edge arrays are left untouched). -/
theorem claim_C9_trace_pec_warn_zero (ext : ExtEnv) (G : RWGGeometry) (SI : ℤ)
    (Omega : Cplx) (KN : Option (ℤ → Cplx)) (Sigma : Option (ℤ → ℤ → Cplx))
    (byEdgeMask : Option (Fin 7 → Bool)) (byEdgeInit : Fin 7 → ℤ → ℚ)
    (Exterior : Bool)
    (h : (G.Surfaces SI).IsPEC = true ∨ (G.Surfaces SI).RegionIndices 1 = -1) :
    GetEPPFTTrace ext G SI Omega KN Sigma byEdgeMask byEdgeInit Exterior =
      some { PFT := fun _ => 0, ByEdge := byEdgeInit, warns := 1 } := by
  simp only [GetEPPFTTrace]
  rw [if_pos h]

/-- Trace half of the missing-current behaviour: with neither current
input supplied, a surface that passes the PEC check and has at least one
edge crashes on the first pair (no result). -/
theorem trace_missing_current_fails (ext : ExtEnv) (G : RWGGeometry) (SI : ℤ)
    (Omega : Cplx) (byEdgeMask : Option (Fin 7 → Bool))
    (byEdgeInit : Fin 7 → ℤ → ℚ) (Exterior : Bool)
    (hPEC : ¬((G.Surfaces SI).IsPEC = true ∨ (G.Surfaces SI).RegionIndices 1 = -1))
    (hNE : 1 ≤ (G.Surfaces SI).NumEdges) :
    GetEPPFTTrace ext G SI Omega none none byEdgeMask byEdgeInit Exterior = none := by
  simp only [GetEPPFTTrace]
  rw [if_neg hPEC]
  obtain ⟨m, hm⟩ : ∃ m, (G.Surfaces SI).NumEdges * (G.Surfaces SI).NumEdges = m + 1 := by
    have hpos : 0 < (G.Surfaces SI).NumEdges * (G.Surfaces SI).NumEdges :=
      Nat.mul_pos hNE hNE
    exact ⟨(G.Surfaces SI).NumEdges * (G.Surfaces SI).NumEdges - 1, by omega⟩
  rw [hm, List.range_succ_eq_map, List.foldlM_cons]
  simp [traceStep, traceProducts]

/-- Variant meshes for the reduction-engine witnesses. -/
def meshZero : RWGSurface := { meshW with NumEdges := 0 }

def geomZ : RWGGeometry :=
  { NumSurfaces := 1, Surfaces := fun _ => meshZero, BFIndexOffset := fun _ => 0 }

def meshOne : RWGSurface := { meshW with NumEdges := 1 }

def geomOne : RWGGeometry :=
  { NumSurfaces := 1, Surfaces := fun _ => meshOne, BFIndexOffset := fun _ => 0 }

def meshPEC : RWGSurface := { meshW with IsPEC := true, NumEdges := 1 }

def geomPEC : RWGGeometry :=
  { NumSurfaces := 1, Surfaces := fun _ => meshPEC, BFIndexOffset := fun _ => 0 }

def knZeroW : Option (ℤ → Cplx) := some (fun _ => 0)

def maskAllW : Option (Fin 7 → Bool) := some (fun _ => true)

def zeroInitW : Fin 7 → ℤ → ℚ := fun _ _ => 0

/-- C2: whenever a per-edge breakdown array is supplied and the call
completes, the sum over all edges of each supplied array equals the
corresponding global scalar of the returned PFT vector — for `GetOPFT`
(slot 0 and slots 2-7, skipping the extinction slot) and for
`GetEPPFTTrace` (slots 0-6), on surfaces that pass the respective entry
validation. -/
theorem claim_C2_reduction_consistency :
    (∀ ext G SI Omega KN RHS Ryt mask byEdgeInit out q,
      ¬(SI < 0 ∨ G.NumSurfaces ≤ SI) →
      GetOPFT ext G SI Omega KN RHS Ryt (some mask) byEdgeInit = some out →
      mask q = true →
      (∑ ne in Finset.range (G.Surfaces SI).NumEdges, out.ByEdge q (ne : ℤ))
        = out.PFT (opftSlot q)) ∧
    (∀ ext G SI Omega KN Sigma mask byEdgeInit out q Exterior,
      ¬((G.Surfaces SI).IsPEC = true ∨ (G.Surfaces SI).RegionIndices 1 = -1) →
      GetEPPFTTrace ext G SI Omega KN Sigma (some mask) byEdgeInit Exterior = some out →
      mask q = true →
      (∑ ne in Finset.range (G.Surfaces SI).NumEdges, out.ByEdge q (ne : ℤ))
        = out.PFT q) :=
  ⟨fun ext G SI Omega KN RHS Ryt mask byEdgeInit out q hv h hq =>
      opft_byedge_sum ext G SI Omega KN RHS Ryt mask byEdgeInit out q hv h hq,
   fun ext G SI Omega KN Sigma mask byEdgeInit out q Exterior hPEC h hq =>
      trace_byedge_sum ext G SI Omega KN Sigma mask byEdgeInit out q Exterior hPEC h hq⟩

/-- Witness for C2: both reduction engines run on the concrete one-edge
mesh with a zero current vector and all per-edge arrays supplied. -/
theorem claim_C2_witness :
    ((GetOPFT extW geomOne 0 II knZeroW none none maskAllW zeroInitW).elim False
      (fun out => (∑ ne in Finset.range (geomOne.Surfaces 0).NumEdges,
          out.ByEdge 0 (ne : ℤ)) = out.PFT (opftSlot 0))) ∧
    ((GetEPPFTTrace extW geomOne 0 II knZeroW none maskAllW zeroInitW false).elim False
      (fun out => (∑ ne in Finset.range (geomOne.Surfaces 0).NumEdges,
          out.ByEdge 0 (ne : ℤ)) = out.PFT 0)) := by
  constructor
  · cases hh : GetOPFT extW geomOne 0 II knZeroW none none maskAllW zeroInitW with
    | none =>
      have hs : (GetOPFT extW geomOne 0 II knZeroW none none maskAllW zeroInitW).isSome
          = true := rfl
      rw [hh] at hs
      exact absurd hs (by simp)
    | some out =>
      simpa using claim_C2_reduction_consistency.1 extW geomOne 0 II knZeroW none none
        _ zeroInitW out 0 (by decide) hh rfl
  · cases hh : GetEPPFTTrace extW geomOne 0 II knZeroW none maskAllW zeroInitW false with
    | none =>
      have hs : (GetEPPFTTrace extW geomOne 0 II knZeroW none maskAllW zeroInitW false).isSome
          = true := rfl
      rw [hh] at hs
      exact absurd hs (by simp)
    | some out =>
      simpa using claim_C2_reduction_consistency.2 extW geomOne 0 II knZeroW none
        _ zeroInitW out 0 false (by decide) hh rfl

/-- Witness for C6 (amended) at an out-of-range index on a one-surface
geometry: one warning, zero PFT, per-edge memory untouched. -/
theorem claim_C6_witness :
    GetOPFT extW geomZ 1 II none none none none (fun _ _ => 5) =
      some { PFT := fun _ => 0, ByEdge := fun _ _ => 5, warns := 1 } :=
  claim_C6_invalid_surface_index extW geomZ 1 II none none none none
    (fun _ _ => 5) (by decide)

/-- Counterexample for C6 as stated: `GetEPPFTTrace` performs no surface
index validation.  Called with the out-of-range index 1 on a geometry
with a single surface, it blindly reads whatever sits past the array
and here completes with ZERO warnings — not the claimed warning plus
zero-filled result. -/
theorem claim_C6_counterexample :
    geomZ.NumSurfaces = 1 ∧ geomZ.NumSurfaces ≤ 1 ∧
    (GetEPPFTTrace extW geomZ 1 II none none none zeroInitW true).map
        (fun o => o.warns) = some 0 := by
  refine ⟨rfl, by decide, ?_⟩
  rfl

/-- C7 (amended): with neither a current vector nor a correlation
matrix supplied, both entry points dereference the null matrix inside
the first processed pair and crash (yield no result) — provided at
least one pair is processed: a valid index and at least one edge for
`GetOPFT`, a passed PEC check and at least one edge for
`GetEPPFTTrace`.  A degenerate zero-edge call instead returns silently
(see the counterexample). -/
theorem claim_C7_missing_current_crashes :
    (∀ ext G SI Omega RHS byEdgeMask byEdgeInit,
      ¬(SI < 0 ∨ G.NumSurfaces ≤ SI) → 1 ≤ (G.Surfaces SI).NumEdges →
      GetOPFT ext G SI Omega none RHS none byEdgeMask byEdgeInit = none) ∧
    (∀ ext G SI Omega byEdgeMask byEdgeInit Exterior,
      ¬((G.Surfaces SI).IsPEC = true ∨ (G.Surfaces SI).RegionIndices 1 = -1) →
      1 ≤ (G.Surfaces SI).NumEdges →
      GetEPPFTTrace ext G SI Omega none none byEdgeMask byEdgeInit Exterior = none) :=
  ⟨fun ext G SI Omega RHS byEdgeMask byEdgeInit hv hNE =>
      opft_missing_current_fails ext G SI Omega RHS byEdgeMask byEdgeInit hv hNE,
   fun ext G SI Omega byEdgeMask byEdgeInit Exterior hPEC hNE =>
      trace_missing_current_fails ext G SI Omega byEdgeMask byEdgeInit Exterior hPEC hNE⟩

/-- Witness for C7 (amended) on the concrete one-edge mesh: both calls
with missing current state crash. -/
theorem claim_C7_witness :
    GetOPFT extW geomOne 0 II none none none none zeroInitW = none ∧
    GetEPPFTTrace extW geomOne 0 II none none none zeroInitW false = none := by
  constructor
  · exact claim_C7_missing_current_crashes.1 extW geomOne 0 II none none zeroInitW
      (by decide) (by decide)
  · exact claim_C7_missing_current_crashes.2 extW geomOne 0 II none zeroInitW false
      (by decide) (by decide)

/-- Counterexample for C7 as stated: on a zero-edge surface with a valid
index, `GetOPFT` with both current inputs null silently returns a result
(with zero warnings) instead of failing loudly. -/
theorem claim_C7_counterexample :
    (geomZ.Surfaces 0).NumEdges = 0 ∧ (0 : ℤ) < geomZ.NumSurfaces ∧
    (GetOPFT extW geomZ 0 II none none none none zeroInitW).map
        (fun o => o.warns) = some 0 := by
  refine ⟨rfl, by decide, ?_⟩
  rfl

/-- Witness for C9: a concrete PEC surface yields the zero 7-vector and
exactly one warning, with per-edge memory untouched. -/
theorem claim_C9_witness :
    GetEPPFTTrace extW geomPEC 0 II none none none (fun _ _ => 3) true =
      some { PFT := fun _ => 0, ByEdge := fun _ _ => 3, warns := 1 } :=
  claim_C9_trace_pec_warn_zero extW geomPEC 0 II none none none
    (fun _ _ => 3) true (by decide)

def knFW : ℤ → Cplx := fun _ => 1

def rhsFW : ℤ → Cplx := fun _ => 1

/-- Witness for C8: with both a current vector and an excitation vector
supplied on the one-edge mesh, slot 1 equals the extinction sum minus
slot 0. -/
theorem claim_C8_witness :
    (GetOPFT extW geomOne 0 II (some knFW) (some rhsFW) none none zeroInitW).elim False
      (fun out => out.PFT 1 =
        OPFTExtinction knFW rhsFW (geomOne.Surfaces 0).IsPEC (geomOne.BFIndexOffset 0)
          (geomOne.Surfaces 0).NumEdges - out.PFT 0) := by
  cases hh : GetOPFT extW geomOne 0 II (some knFW) (some rhsFW) none none zeroInitW with
  | none =>
    have hs : (GetOPFT extW geomOne 0 II (some knFW) (some rhsFW) none none
        zeroInitW).isSome = true := rfl
    rw [hh] at hs
    exact absurd hs (by simp)
  | some out =>
    simpa using (claim_C8_extinction_slot extW geomOne 0 II (some knFW) (some rhsFW)
      none none zeroInitW out (by decide) hh).1 knFW rhsFW rfl rfl

/-- Witness for C10: on a concrete PEC surface with a current vector,
the absorbed power output is exactly zero. -/
theorem claim_C10_witness :
    (GetOPFT extW geomPEC 0 II (some knFW) none none none zeroInitW).elim False
      (fun out => out.PFT 0 = 0) := by
  cases hh : GetOPFT extW geomPEC 0 II (some knFW) none none none zeroInitW with
  | none =>
    have hs : (GetOPFT extW geomPEC 0 II (some knFW) none none none
        zeroInitW).isSome = true := rfl
    rw [hh] at hs
    exact absurd hs (by simp)
  | some out =>
    simpa using claim_C10_pec_absorbed_power_zero extW geomPEC 0 II knFW none none
      none zeroInitW out (by decide) (by decide) hh

/-- Counterexample for C2 as stated over every call: on the warned
early-return path (here an out-of-range surface index) the supplied
per-edge arrays are never written, so their pre-call contents (here all
ones) do not sum to the zero-filled global component. -/
theorem claim_C2_counterexample :
    geomOne.NumSurfaces ≤ 1 ∧
    (GetOPFT extW geomOne 1 II none none none maskAllW (fun _ _ => 1)).elim False
      (fun out => ¬((∑ ne in Finset.range (geomOne.Surfaces 1).NumEdges,
          out.ByEdge 0 (ne : ℤ)) = out.PFT (opftSlot 0))) := by
  refine ⟨by decide, ?_⟩
  have hh : GetOPFT extW geomOne 1 II none none none maskAllW (fun _ _ => 1) =
      some { PFT := fun _ => 0, ByEdge := fun _ _ => 1, warns := 1 } := rfl
  rw [hh]
  simp only [Option.elim]
  simp [geomOne, meshOne, opftSlot]

def knCex : ℤ → Cplx := fun i => if i = 0 then 1 else 0

/-- Counterexample for C8 as stated over every call: on the warned
invalid-index early return, `PFT[1]` is zero-filled even though both a
current vector and an excitation vector were supplied and their
extinction sum (over the out-of-range surface the unchecked read
yields) is nonzero. -/
theorem claim_C8_counterexample :
    geomOne.NumSurfaces ≤ 1 ∧
    (GetOPFT extW geomOne 1 II (some knCex) (some rhsFW) none none zeroInitW).elim False
      (fun out => ¬(out.PFT 1 =
        OPFTExtinction knCex rhsFW (geomOne.Surfaces 1).IsPEC (geomOne.BFIndexOffset 1)
          (geomOne.Surfaces 1).NumEdges - out.PFT 0)) := by
  refine ⟨by decide, ?_⟩
  have hh : GetOPFT extW geomOne 1 II (some knCex) (some rhsFW) none none zeroInitW =
      some { PFT := fun _ => 0, ByEdge := zeroInitW, warns := 1 } := rfl
  rw [hh]
  simp only [Option.elim]
  norm_num [OPFTExtinction, knCex, rhsFW, geomOne, meshOne, meshW, Cplx.conj,
    CQ, ZVAC, Finset.sum_range_one]
